import Mathlib

set_option linter.unreachableTactic false
set_option linter.unusedTactic false
set_option linter.unnecessarySeqFocus false

/-!
Verification of the Codex AI-SDK provider core.

This file shallowly embeds the stateful logic of the repository:
  - the response protocol translator, in its streaming form
    (CodexLanguageModel.doStream) and its buffered form
    (CodexLanguageModel.doGenerate),
  - the usage extractor (extractUsage) and finish-reason mapping
    (mapFinishReason),
  - the request encoder (convertToCodexInput),
  - the provider header assembly (getHeaders in createCodex) and the
    refresh-token single-flight discipline (ensureRefreshSession),
  - the upstream error-message extraction (tryParseErrorMessage).

JavaScript-runtime capabilities (JSON.parse of event frames, randomUUID,
base64 encoding) are modelled as explicit parameters or as pre-parsed
data, exactly at the seams where the source injects them.  Event records
arrive pre-parsed: a record is either skipped (falsy data or the DONE
marker), malformed (JSON.parse throws), or a parsed structure carrying
the fields the source actually reads.
-/

namespace Codex

-- ── JSON values appearing as tool-call arguments ───────────────────────

/-- A JSON value as the translator distinguishes it: either a string
(used verbatim) or any other value, carried here by its
JSON.stringify rendering, since the source only ever re-serializes it. -/
inductive JsonVal where
  | str (s : String)
  | other (serialized : String)
deriving DecidableEq, Repr

-- ── Parsed event records (the fields the source reads) ─────────────────

/-- The item object of a response.output_item.added record. -/
structure OutputItemData where
  type : Option String
  name : Option String
  id : Option String
deriving DecidableEq, Repr

structure InputTokensDetails where
  cached_tokens : Option Int
deriving DecidableEq, Repr

structure OutputTokensDetails where
  reasoning_tokens : Option Int
deriving DecidableEq, Repr

/-- The usage object on a response.completed record. -/
structure RawUsage where
  input_tokens : Option Int
  output_tokens : Option Int
  input_tokens_details : Option InputTokensDetails
  output_tokens_details : Option OutputTokensDetails
deriving DecidableEq, Repr

/-- The response object on a response.completed record. -/
structure ResponseData where
  status : Option String
  id : Option String
  model : Option String
  usage : Option RawUsage
deriving DecidableEq, Repr

/-- A successfully JSON-parsed event record, restricted to the fields
the translator reads. -/
structure ParsedEvent where
  type : Option String := none
  delta : Option String := none
  item : Option OutputItemData := none
  item_id : Option String := none
  name : Option String := none
  arguments : Option JsonVal := none
  call_id : Option String := none
  response : Option ResponseData := none
deriving DecidableEq, Repr

/-- One decoded SSE record as the translator receives it.  empty covers
a chunk whose data field is absent or the empty string (falsy), which
both modes skip; doneMarker is the literal DONE sentinel; malformed is a
chunk whose data does not parse as JSON. -/
inductive EventRecord where
  | empty
  | doneMarker
  | malformed
  | parsed (e : ParsedEvent)
deriving DecidableEq, Repr

-- ── Normalized output vocabulary ───────────────────────────────────────

/-- Request-encoder warnings carried on stream-start. -/
inductive Warning where
  | topK
  | jsonResponseFormat
deriving DecidableEq, Repr

structure InputTokensUsage where
  total : Option Int
  noCache : Option Int
  cacheRead : Option Int
  cacheWrite : Option Int
deriving DecidableEq, Repr

structure OutputTokensUsage where
  total : Option Int
  text : Option Int
  reasoning : Option Int
deriving DecidableEq, Repr

structure Usage where
  inputTokens : InputTokensUsage
  outputTokens : OutputTokensUsage
  raw : Option RawUsage
deriving DecidableEq, Repr

structure FinishReason where
  unified : String
  raw : String
deriving DecidableEq, Repr

/-- A normalized output event of the streaming translator.  The
timestamp on response-metadata and the cause payload on error are
dropped (wall-clock and exception objects respectively). -/
inductive StreamPart where
  | streamStart (warnings : List Warning)
  | raw (value : ParsedEvent)
  | textStart (id : String)
  | textDelta (id : String) (delta : String)
  | textEnd (id : String)
  | reasoningStart (id : String)
  | reasoningDelta (id : String) (delta : String)
  | reasoningEnd (id : String)
  | toolInputStart (id : String) (toolName : String)
  | toolInputDelta (id : String) (delta : String)
  | toolInputEnd (id : String)
  | toolCall (toolCallId : String) (toolName : String) (input : Option String)
  | responseMetadata (id : Option String) (modelId : Option String)
  | finish (finishReason : FinishReason) (usage : Usage)
  | error
deriving DecidableEq, Repr

/-- A finished tool call as pushed into the buffered result and as
carried by a tool-call stream part.  input is Option String because
JSON.stringify of an absent value is itself absent. -/
structure ToolCallItem where
  toolCallId : String
  toolName : String
  input : Option String
deriving DecidableEq, Repr

-- ── Helpers shared with the source ─────────────────────────────────────

/-- mapFinishReason from codex-language-model. -/
def mapFinishReason (reason : String) : FinishReason :=
  if reason = "stop" ∨ reason = "completed" then ⟨"stop", reason⟩
  else if reason = "length" ∨ reason = "max_output_tokens" then ⟨"length", reason⟩
  else if reason = "tool_calls" ∨ reason = "incomplete" then ⟨"tool-calls", reason⟩
  else if reason = "content_filter" then ⟨"content-filter", reason⟩
  else if reason = "error" ∨ reason = "failed" then ⟨"error", reason⟩
  else ⟨"other", reason⟩

/-- extractUsage from codex-language-model. -/
def extractUsage (response : Option ResponseData) : Usage :=
  let usage := response.bind ResponseData.usage
  let outputDetails := usage.bind RawUsage.output_tokens_details
  let inputDetails := usage.bind RawUsage.input_tokens_details
  let inputTotal := usage.bind RawUsage.input_tokens
  let outputTotal := usage.bind RawUsage.output_tokens
  let cachedTokens := inputDetails.bind InputTokensDetails.cached_tokens
  let reasoningTokens := outputDetails.bind OutputTokensDetails.reasoning_tokens
  { inputTokens :=
      { total := inputTotal
        noCache :=
          match inputTotal, cachedTokens with
          | some t, some c => some (t - c)
          | _, _ => none
        cacheRead := cachedTokens
        cacheWrite := none }
    outputTokens :=
      { total := outputTotal
        text :=
          match outputTotal, reasoningTokens with
          | some t, some r => some (t - r)
          | _, _ => none
        reasoning := reasoningTokens }
    raw := usage }

/-- emptyUsage from codex-language-model. -/
def emptyUsage : Usage :=
  { inputTokens :=
      { total := none, noCache := none, cacheRead := none, cacheWrite := none }
    outputTokens := { total := none, text := none, reasoning := none }
    raw := none }

-- JS Map operations on an association list: get, set (overwrite), delete.

def mapGet (m : List (String × String)) (k : String) : Option String :=
  (m.find? (fun p => p.1 = k)).map Prod.snd

def mapSet (m : List (String × String)) (k v : String) : List (String × String) :=
  if (m.find? (fun p => p.1 = k)).isSome then
    m.map (fun p => if p.1 = k then (k, v) else p)
  else
    m ++ [(k, v)]

def mapDelete (m : List (String × String)) (k : String) : List (String × String) :=
  m.filter (fun p => ¬ p.1 = k)

/-- Nullish coalescing on options: first value if present, else second. -/
def orOpt (a b : Option String) : Option String :=
  match a with
  | some s => some s
  | none => b

/-- The event-type ladder shared by both translator modes: the parsed
type field is tested against the protocol event names in source order. -/
inductive EventKind where
  | textDelta | textDone | reasoningDelta | reasoningDone
  | itemAdded | argsDelta | argsDone | completed | otherKind
deriving DecidableEq, Repr

def eventKind (t : Option String) : EventKind :=
  if t = some "response.output_text.delta" then .textDelta
  else if t = some "response.output_text.done" then .textDone
  else if t = some "response.reasoning_summary_text.delta" then .reasoningDelta
  else if t = some "response.reasoning_summary_text.done" then .reasoningDone
  else if t = some "response.output_item.added" then .itemAdded
  else if t = some "response.function_call_arguments.delta" then .argsDelta
  else if t = some "response.function_call_arguments.done" then .argsDone
  else if t = some "response.completed" then .completed
  else .otherKind

-- ── Streaming translator state (doStream transform closure) ────────────

structure StreamState where
  toolCallInfo : List (String × String)
  functionCallArgs : List (String × String)
  isFirstChunk : Bool
  currentTextId : Option String
  currentReasoningId : Option String
  uuidIdx : Nat
deriving DecidableEq, Repr

def initStreamState : StreamState :=
  { toolCallInfo := [], functionCallArgs := [], isFirstChunk := true,
    currentTextId := none, currentReasoningId := none, uuidIdx := 0 }

/-- One step of the doStream transform.  u is the randomUUID supply,
consumed at state.uuidIdx; w the request warnings; includeRaw the
includeRawChunks option.  Returns the new state and the enqueued parts,
in order. -/
def streamStep (w : List Warning) (includeRaw : Bool) (u : Nat → String)
    (st : StreamState) (r : EventRecord) : StreamState × List StreamPart :=
  match r with
  | .empty => (st, [])
  | .doneMarker => (st, [])
  | .malformed => (st, [.error])
  | .parsed e =>
    let pre : List StreamPart :=
      (if st.isFirstChunk then [.streamStart w] else []) ++
      (if includeRaw then [.raw e] else [])
    let st0 := { st with isFirstChunk := false }
    match eventKind e.type with
    | .textDelta =>
      match st0.currentTextId with
      | none =>
        let id := u st0.uuidIdx
        ({ st0 with currentTextId := some id, uuidIdx := st0.uuidIdx + 1 },
          pre ++ [.textStart id, .textDelta id (e.delta.getD "")])
      | some id => (st0, pre ++ [.textDelta id (e.delta.getD "")])
    | .textDone =>
      match st0.currentTextId with
      | some id => ({ st0 with currentTextId := none }, pre ++ [.textEnd id])
      | none => (st0, pre)
    | .reasoningDelta =>
      match st0.currentReasoningId with
      | none =>
        let id := u st0.uuidIdx
        ({ st0 with currentReasoningId := some id, uuidIdx := st0.uuidIdx + 1 },
          pre ++ [.reasoningStart id, .reasoningDelta id (e.delta.getD "")])
      | some id => (st0, pre ++ [.reasoningDelta id (e.delta.getD "")])
    | .reasoningDone =>
      match st0.currentReasoningId with
      | some id => ({ st0 with currentReasoningId := none }, pre ++ [.reasoningEnd id])
      | none => (st0, pre)
    | .itemAdded =>
      match e.item with
      | some item =>
        match item.name with
        | some n =>
          if item.type = some "function_call" ∧ ¬ n = "" then
            match orOpt item.id e.item_id with
            | some itemId =>
              if ¬ itemId = "" then
                ({ st0 with toolCallInfo := mapSet st0.toolCallInfo itemId n },
                  pre ++ [.toolInputStart itemId n])
              else (st0, pre)
            | none => (st0, pre)
          else (st0, pre)
        | none => (st0, pre)
      | none => (st0, pre)
    | .argsDelta =>
      match e.item_id, e.delta with
      | some itemId, some d =>
        if ¬ itemId = "" ∧ ¬ d = "" then
          let current := (mapGet st0.functionCallArgs itemId).getD ""
          ({ st0 with functionCallArgs := mapSet st0.functionCallArgs itemId (current ++ d) },
            pre ++ [.toolInputDelta itemId d])
        else (st0, pre)
      | _, _ => (st0, pre)
    | .argsDone =>
      let truthyId : Bool :=
        match e.item_id with
        | some s => decide (¬ s = "")
        | none => false
      let key := e.item_id.getD ""
      let toolInfo := if truthyId then mapGet st0.toolCallInfo key else none
      let toolName := (orOpt toolInfo e.name).getD "unknown"
      let accHit : Bool := truthyId && (mapGet st0.functionCallArgs key).isSome
      let args : Option JsonVal :=
        if accHit then some (.str ((mapGet st0.functionCallArgs key).getD ""))
        else e.arguments
      let newArgs :=
        if accHit then mapDelete st0.functionCallArgs key else st0.functionCallArgs
      let argsString : Option String :=
        match args with
        | some (.str s) => some s
        | some (.other r) => some r
        | none => none
      let idPair : String × Nat :=
        match orOpt e.call_id e.item_id with
        | some c => (c, st0.uuidIdx)
        | none => (u st0.uuidIdx, st0.uuidIdx + 1)
      let endEvs : List StreamPart :=
        if truthyId then [.toolInputEnd key] else []
      ({ st0 with functionCallArgs := newArgs, uuidIdx := idPair.2 },
        pre ++ (endEvs ++ [.toolCall idPair.1 toolName argsString]))
    | .completed =>
      let textEvs : List StreamPart :=
        match st0.currentTextId with
        | some id => [.textEnd id]
        | none => []
      let reasEvs : List StreamPart :=
        match st0.currentReasoningId with
        | some id => [.reasoningEnd id]
        | none => []
      let resp := e.response
      ({ st0 with currentTextId := none, currentReasoningId := none },
        pre ++ (textEvs ++ reasEvs ++
          [.responseMetadata (resp.bind ResponseData.id) (resp.bind ResponseData.model),
           .finish (mapFinishReason ((resp.bind ResponseData.status).getD "stop"))
             (extractUsage resp)]))
    | .otherKind => (st0, pre)

/-- Run the doStream transform over a whole record sequence,
concatenating the enqueued parts.  The transform has no flush step:
when the input ends, no further parts are produced. -/
def streamRun (w : List Warning) (includeRaw : Bool) (u : Nat → String) :
    StreamState → List EventRecord → StreamState × List StreamPart
  | st, [] => (st, [])
  | st, r :: rs =>
    let p := streamStep w includeRaw u st r
    let q := streamRun w includeRaw u p.1 rs
    (q.1, p.2 ++ q.2)

-- ── Buffered translator state (doGenerate read loop) ───────────────────

structure GenState where
  accumulatedText : String
  toolCallInfo : List (String × String)
  functionCallArgs : List (String × String)
  toolCalls : List ToolCallItem
  finishReason : FinishReason
  usage : Usage
  responseId : Option String
  responseModelId : Option String
  uuidIdx : Nat
deriving DecidableEq, Repr

def initGenState : GenState :=
  { accumulatedText := "", toolCallInfo := [], functionCallArgs := [],
    toolCalls := [], finishReason := mapFinishReason "stop", usage := emptyUsage,
    responseId := none, responseModelId := none, uuidIdx := 0 }

/-- One iteration of the doGenerate buffering loop.  v is its own
randomUUID supply.  A malformed chunk is swallowed by the catch. -/
def genStep (v : Nat → String) (gs : GenState) (r : EventRecord) : GenState :=
  match r with
  | .empty => gs
  | .doneMarker => gs
  | .malformed => gs
  | .parsed e =>
    match eventKind e.type with
    | .textDelta =>
      { gs with accumulatedText := gs.accumulatedText ++ e.delta.getD "" }
    | .itemAdded =>
      match e.item with
      | some item =>
        match item.name with
        | some n =>
          if item.type = some "function_call" ∧ ¬ n = "" then
            match orOpt item.id e.item_id with
            | some itemId =>
              if ¬ itemId = "" then
                { gs with toolCallInfo := mapSet gs.toolCallInfo itemId n }
              else gs
            | none => gs
          else gs
        | none => gs
      | none => gs
    | .argsDelta =>
      match e.item_id, e.delta with
      | some itemId, some d =>
        if ¬ itemId = "" ∧ ¬ d = "" then
          let current := (mapGet gs.functionCallArgs itemId).getD ""
          { gs with functionCallArgs := mapSet gs.functionCallArgs itemId (current ++ d) }
        else gs
      | _, _ => gs
    | .argsDone =>
      let truthyId : Bool :=
        match e.item_id with
        | some s => decide (¬ s = "")
        | none => false
      let key := e.item_id.getD ""
      let toolInfo := if truthyId then mapGet gs.toolCallInfo key else none
      let toolName := (orOpt toolInfo e.name).getD "unknown"
      let accHit : Bool := truthyId && (mapGet gs.functionCallArgs key).isSome
      let args : Option JsonVal :=
        if accHit then some (.str ((mapGet gs.functionCallArgs key).getD ""))
        else e.arguments
      let newArgs :=
        if accHit then mapDelete gs.functionCallArgs key else gs.functionCallArgs
      let argsString : Option String :=
        match args with
        | some (.str s) => some s
        | some (.other r) => some r
        | none => none
      let idPair : String × Nat :=
        match orOpt e.call_id e.item_id with
        | some c => (c, gs.uuidIdx)
        | none => (v gs.uuidIdx, gs.uuidIdx + 1)
      { gs with
        functionCallArgs := newArgs
        uuidIdx := idPair.2
        toolCalls := gs.toolCalls ++ [⟨idPair.1, toolName, argsString⟩] }
    | .completed =>
      { gs with
        finishReason := mapFinishReason ((e.response.bind ResponseData.status).getD "stop")
        usage := extractUsage e.response
        responseId := e.response.bind ResponseData.id
        responseModelId := e.response.bind ResponseData.model }
    | .textDone => gs
    | .reasoningDelta => gs
    | .reasoningDone => gs
    | .otherKind => gs

/-- Run the doGenerate loop over a whole record sequence. -/
def genRun (v : Nat → String) : GenState → List EventRecord → GenState
  | gs, [] => gs
  | gs, r :: rs => genRun v (genStep v gs r) rs

-- ── Observations of a streamed event sequence ──────────────────────────

/-- Concatenation of all text-delta payloads, in order: the final text a
stream consumer accumulates. -/
def deltasOf : List StreamPart → String
  | [] => ""
  | .textDelta _ d :: rest => d ++ deltasOf rest
  | _ :: rest => deltasOf rest

/-- The tool-call events of a stream, in order. -/
def toolCallsOf : List StreamPart → List ToolCallItem
  | [] => []
  | .toolCall i n a :: rest => ⟨i, n, a⟩ :: toolCallsOf rest
  | _ :: rest => toolCallsOf rest

/-- The finish events of a stream (finish reason and usage), in order. -/
def finishesOf : List StreamPart → List (FinishReason × Usage)
  | [] => []
  | .finish fr us :: rest => (fr, us) :: finishesOf rest
  | _ :: rest => finishesOf rest

theorem deltasOf_append (a b : List StreamPart) :
    deltasOf (a ++ b) = deltasOf a ++ deltasOf b := by
  induction a with
  | nil => simp [deltasOf, String.empty_append]
  | cons ev t ih => cases ev <;> simp [deltasOf, ih, String.append_assoc]

theorem toolCallsOf_append (a b : List StreamPart) :
    toolCallsOf (a ++ b) = toolCallsOf a ++ toolCallsOf b := by
  induction a with
  | nil => simp [toolCallsOf]
  | cons ev t ih => cases ev <;> simp [toolCallsOf, ih]

theorem finishesOf_append (a b : List StreamPart) :
    finishesOf (a ++ b) = finishesOf a ++ finishesOf b := by
  induction a with
  | nil => simp [finishesOf]
  | cons ev t ih => cases ev <;> simp [finishesOf, ih]

theorem mapGet_mapDelete_self (m : List (String × String)) (k : String) :
    mapGet (mapDelete m k) k = none := by
  induction m with
  | nil => rfl
  | cons p t ih =>
    by_cases h : p.1 = k
    · simpa [mapDelete, List.filter_cons, h] using ih
    · simp [mapDelete, List.filter_cons, h, mapGet, List.find?_cons]


-- ── C8: usage extraction ───────────────────────────────────────────────

/-- C8: extractUsage populates every usage field only from data actually
present on the terminal response.completed event (each field equals the
corresponding nested field of the event, absent when absent; cacheWrite
is never populated), and the derived fields are characterized by
noCache = inputTokens.total - cacheRead and text = outputTokens.total -
reasoning, defined exactly when both operands are present. -/
theorem c8_extract_usage_fields (r : Option ResponseData) :
    (extractUsage r).inputTokens.total
        = (r.bind ResponseData.usage).bind RawUsage.input_tokens
  ∧ (extractUsage r).outputTokens.total
        = (r.bind ResponseData.usage).bind RawUsage.output_tokens
  ∧ (extractUsage r).inputTokens.cacheRead
        = ((r.bind ResponseData.usage).bind RawUsage.input_tokens_details).bind
            InputTokensDetails.cached_tokens
  ∧ (extractUsage r).outputTokens.reasoning
        = ((r.bind ResponseData.usage).bind RawUsage.output_tokens_details).bind
            OutputTokensDetails.reasoning_tokens
  ∧ (extractUsage r).inputTokens.cacheWrite = none
  ∧ (extractUsage r).raw = r.bind ResponseData.usage
  ∧ (∀ v : Int, (extractUsage r).inputTokens.noCache = some v ↔
      ∃ t c, (r.bind ResponseData.usage).bind RawUsage.input_tokens = some t
        ∧ ((r.bind ResponseData.usage).bind RawUsage.input_tokens_details).bind
            InputTokensDetails.cached_tokens = some c
        ∧ v = t - c)
  ∧ (∀ v : Int, (extractUsage r).outputTokens.text = some v ↔
      ∃ t c, (r.bind ResponseData.usage).bind RawUsage.output_tokens = some t
        ∧ ((r.bind ResponseData.usage).bind RawUsage.output_tokens_details).bind
            OutputTokensDetails.reasoning_tokens = some c
        ∧ v = t - c) := by
  refine ⟨rfl, rfl, rfl, rfl, rfl, rfl, ?_, ?_⟩
  · intro v
    rcases h1 : (r.bind ResponseData.usage).bind RawUsage.input_tokens with _ | t <;>
      rcases h2 : ((r.bind ResponseData.usage).bind RawUsage.input_tokens_details).bind
          InputTokensDetails.cached_tokens with _ | c <;>
        simp [extractUsage, h1, h2, eq_comm]
  · intro v
    rcases h1 : (r.bind ResponseData.usage).bind RawUsage.output_tokens with _ | t <;>
      rcases h2 : ((r.bind ResponseData.usage).bind RawUsage.output_tokens_details).bind
          OutputTokensDetails.reasoning_tokens with _ | c <;>
        simp [extractUsage, h1, h2, eq_comm]

-- ── C6: function_call_arguments.done resolution ────────────────────────

/-- The argument string the done handler derives from the arguments
field of the event when the per-item accumulator is empty: used verbatim
when already a string, its JSON serialization otherwise, absent when the
field is absent. -/
def stringifyArguments : Option JsonVal → Option String
  | some (.str s) => some s
  | some (.other serialized) => some serialized
  | none => none

/-- C6: on a function_call_arguments.done record carrying a non-empty
item id, both translator modes resolve the tool name by preferring the
name recorded for that item id (at output_item.added), then the name
field of the done event, else the literal unknown; resolve the input by
preferring the per-item accumulator, else the (re-serialized) arguments
field of the event; clear the accumulator for that item; and use the
call_id (falling back to the item id) as toolCallId. -/
theorem c6_done_resolution (u v : Nat → String) (w : List Warning)
    (includeRaw : Bool) (ss : StreamState) (gs : GenState) (e : ParsedEvent)
    (i : String) (htype : e.type = some "response.function_call_arguments.done")
    (hid : e.item_id = some i) (hne : ¬ i = "") :
    (streamStep w includeRaw u ss (.parsed e)).2
      = (if ss.isFirstChunk then [.streamStart w] else [])
        ++ (if includeRaw then [.raw e] else [])
        ++ [.toolInputEnd i,
            .toolCall (e.call_id.getD i)
              ((orOpt (mapGet ss.toolCallInfo i) e.name).getD "unknown")
              (match mapGet ss.functionCallArgs i with
               | some acc => some acc
               | none => stringifyArguments e.arguments)]
  ∧ mapGet (streamStep w includeRaw u ss (.parsed e)).1.functionCallArgs i = none
  ∧ (streamStep w includeRaw u ss (.parsed e)).1.toolCallInfo = ss.toolCallInfo
  ∧ (genStep v gs (.parsed e)).toolCalls
      = gs.toolCalls
        ++ [⟨e.call_id.getD i,
             (orOpt (mapGet gs.toolCallInfo i) e.name).getD "unknown",
             match mapGet gs.functionCallArgs i with
             | some acc => some acc
             | none => stringifyArguments e.arguments⟩]
  ∧ mapGet (genStep v gs (.parsed e)).functionCallArgs i = none := by
  have hk : eventKind e.type = .argsDone := by rw [htype]; rfl
  refine ⟨?_, ?_, ?_, ?_, ?_⟩
  · rcases hacc : mapGet ss.functionCallArgs i with _ | acc <;>
      rcases hc : e.call_id with _ | c <;>
        simp [streamStep, hk, hid, hne, hacc, hc, stringifyArguments, orOpt]
  · rcases hacc : mapGet ss.functionCallArgs i with _ | acc <;>
      simp [streamStep, hk, hid, hne, hacc, mapGet_mapDelete_self]
  · rcases hacc : mapGet ss.functionCallArgs i with _ | acc <;>
      simp [streamStep, hk, hid, hne, hacc]
  · rcases hacc : mapGet gs.functionCallArgs i with _ | acc <;>
      rcases hc : e.call_id with _ | c <;>
        simp [genStep, hk, hid, hne, hacc, hc, stringifyArguments, orOpt]
  · rcases hacc : mapGet gs.functionCallArgs i with _ | acc <;>
      simp [genStep, hk, hid, hne, hacc, mapGet_mapDelete_self]

-- ── Concrete fixtures for witnesses and counterexamples ───────────────

/-- A concrete injective uuid supply: decimal numerals. -/
def natName : Nat → String := fun n => Nat.repr n

def mkTextDelta (s : String) : EventRecord :=
  .parsed { type := some "response.output_text.delta", delta := some s }

def mkTextDone : EventRecord :=
  .parsed { type := some "response.output_text.done" }

def mkReasoningDelta (s : String) : EventRecord :=
  .parsed { type := some "response.reasoning_summary_text.delta", delta := some s }

def mkReasoningDone : EventRecord :=
  .parsed { type := some "response.reasoning_summary_text.done" }

def mkItemAdded (itemId toolName : String) : EventRecord :=
  .parsed { type := some "response.output_item.added"
          , item := some { type := some "function_call", name := some toolName, id := some itemId } }

def mkArgsDelta (itemId s : String) : EventRecord :=
  .parsed { type := some "response.function_call_arguments.delta", item_id := some itemId, delta := some s }

def mkArgsDone (itemId : String) : EventRecord :=
  .parsed { type := some "response.function_call_arguments.done", item_id := some itemId }

def completedResponse (status : String) : ResponseData :=
  { status := some status, id := some "resp1", model := some "model1"
  , usage := some { input_tokens := some 5, output_tokens := some 2
                  , input_tokens_details := none
                  , output_tokens_details := none } }

def mkCompleted (status : String) : EventRecord :=
  .parsed { type := some "response.completed", response := some (completedResponse status) }

def c6wSS : StreamState :=
  { toolCallInfo := [("item1", "getWeather")]
  , functionCallArgs := [("item1", "\x7b\"a\":1\x7d")]
  , isFirstChunk := false, currentTextId := none, currentReasoningId := none, uuidIdx := 0 }

def c6wGS : GenState :=
  { initGenState with
    toolCallInfo := [("item1", "getWeather")]
    functionCallArgs := [("item1", "\x7b\"a\":1\x7d")] }

def c6wE : ParsedEvent :=
  { type := some "response.function_call_arguments.done"
  , item_id := some "item1", call_id := some "call9" }

def c6sRecords : List EventRecord :=
  [mkArgsDelta "item1" "\x7b\"a\":", mkArgsDelta "item1" "1\x7d",
   mkArgsDone "item1"]

/-- C6 witness: at a state where item1 recorded name getWeather and the
accumulator holds the concatenated deltas, a done record with call id
call9 yields the accumulated input and clears the accumulator; and the
spec scenario (two argument deltas then a done event without arguments)
yields one tool call whose input is the concatenation, in both modes. -/
theorem c6_done_resolution_witness :
    (c6wE.type = some "response.function_call_arguments.done"
      ∧ c6wE.item_id = some "item1" ∧ ¬ ("item1" : String) = "")
  ∧ (genStep natName c6wGS (.parsed c6wE)).toolCalls
      = [⟨"call9", "getWeather", some "\x7b\"a\":1\x7d"⟩]
  ∧ mapGet (genStep natName c6wGS (.parsed c6wE)).functionCallArgs "item1" = none
  ∧ (genRun natName initGenState c6sRecords).toolCalls
      = [⟨"item1", "unknown", some "\x7b\"a\":1\x7d"⟩]
  ∧ toolCallsOf (streamRun [] false natName initStreamState c6sRecords).2
      = [⟨"item1", "unknown", some "\x7b\"a\":1\x7d"⟩] := by
  have h := c6_done_resolution natName natName [] false c6wSS c6wGS c6wE "item1" rfl rfl (by decide)
  refine ⟨⟨rfl, rfl, by decide⟩, ?_, h.2.2.2.2, by decide, by decide⟩
  rw [h.2.2.2.1]
  decide

-- ── C10: buffered mode ignores reasoning records ───────────────────────

/-- A record that carries a reasoning summary event type. -/
def isReasoningRecord : EventRecord → Bool
  | .parsed e =>
      e.type == some "response.reasoning_summary_text.delta"
        || e.type == some "response.reasoning_summary_text.done"
  | _ => false

theorem genStep_reasoning_noop (v : Nat → String) (gs : GenState)
    (r : EventRecord) (h : isReasoningRecord r = true) : genStep v gs r = gs := by
  cases r with
  | empty => rfl
  | doneMarker => rfl
  | malformed => rfl
  | parsed e =>
    simp only [isReasoningRecord, Bool.or_eq_true, beq_iff_eq] at h
    rcases h with h | h <;>
      · have hk : eventKind e.type = .reasoningDelta ∨ eventKind e.type = .reasoningDone := by
          rw [h]
          first
          | exact Or.inl rfl
          | exact Or.inr rfl
        rcases hk with hk | hk <;> simp [genStep, hk]

/-- C10: the buffered translator produces the same result whether or not
reasoning summary records are present in the stream, while the streaming
translator emits reasoning-start, reasoning-delta and reasoning-end
events for the same records. -/
theorem c10_buffered_ignores_reasoning :
    (∀ (v : Nat → String) (gs : GenState) (rs : List EventRecord),
      genRun v gs (rs.filter (fun r => !(isReasoningRecord r))) = genRun v gs rs)
  ∧ (streamRun [] false natName initStreamState
        [mkReasoningDelta "think", mkReasoningDone]).2
      = [.streamStart [], .reasoningStart "0", .reasoningDelta "0" "think",
         .reasoningEnd "0"] := by
  constructor
  · intro v gs rs
    induction rs generalizing gs with
    | nil => rfl
    | cons r t ih =>
      by_cases h : isReasoningRecord r = true
      · have hstep := genStep_reasoning_noop v gs r h
        simp [List.filter_cons, h, genRun, hstep, ih]
      · simp only [Bool.not_eq_true] at h
        simp [List.filter_cons, h, genRun, ih]
  · decide

-- ── C7: stream-start emission ──────────────────────────────────────────

def isParsedRecord : EventRecord → Bool
  | .parsed _ => true
  | _ => false

def isMalformedRecord : EventRecord → Bool
  | .malformed => true
  | _ => false

/-- Number of stream-start events in an emitted sequence. -/
def countStreamStarts : List StreamPart → Nat
  | [] => 0
  | .streamStart _ :: rest => countStreamStarts rest + 1
  | _ :: rest => countStreamStarts rest

theorem countStreamStarts_append (a b : List StreamPart) :
    countStreamStarts (a ++ b) = countStreamStarts a + countStreamStarts b := by
  induction a with
  | nil => simp [countStreamStarts]
  | cons ev t ih => cases ev <;> (simp [countStreamStarts, ih]; try omega)

theorem streamStep_nonparsed (w : List Warning) (includeRaw : Bool)
    (u : Nat → String) (st : StreamState) (r : EventRecord)
    (h : isParsedRecord r = false) :
    streamStep w includeRaw u st r
      = (st, if isMalformedRecord r = true then [.error] else []) := by
  cases r <;> simp_all [streamStep, isParsedRecord, isMalformedRecord]

theorem streamRun_nonparsed (w : List Warning) (includeRaw : Bool)
    (u : Nat → String) (st : StreamState) (pre : List EventRecord)
    (h : ∀ r ∈ pre, isParsedRecord r = false) :
    streamRun w includeRaw u st pre
      = (st, List.replicate (pre.countP isMalformedRecord) .error) := by
  induction pre with
  | nil => simp [streamRun]
  | cons r t ih =>
    have h1 : isParsedRecord r = false := h r (List.mem_cons_self r t)
    have h2 : ∀ x ∈ t, isParsedRecord x = false := fun x hx => h x (List.mem_cons_of_mem r hx)
    rw [streamRun, streamStep_nonparsed w includeRaw u st r h1, ih h2]
    by_cases hm : isMalformedRecord r = true
    · simp [hm, List.countP_cons, List.replicate_succ, Nat.add_comm]
    · simp [hm, List.countP_cons]

/-- After consuming any parsed record, isFirstChunk is false. -/
theorem streamStep_parsed_flag (w : List Warning) (includeRaw : Bool)
    (u : Nat → String) (st : StreamState) (e : ParsedEvent) :
    (streamStep w includeRaw u st (.parsed e)).1.isFirstChunk = false := by
  rcases hk : eventKind e.type <;> simp only [streamStep, hk] <;>
    (repeat' split) <;> rfl

/-- One parsed record emits the pending first-chunk stream-start (when
isFirstChunk still holds), then the raw chunk (when requested), then
dispatch parts that never include a stream-start. -/
theorem streamStep_parsed_decomp (w : List Warning) (includeRaw : Bool)
    (u : Nat → String) (st : StreamState) (e : ParsedEvent) :
    ∃ tail, (streamStep w includeRaw u st (.parsed e)).2
        = ((if st.isFirstChunk then [StreamPart.streamStart w] else [])
            ++ (if includeRaw then [StreamPart.raw e] else [])) ++ tail
      ∧ countStreamStarts tail = 0 := by
  rcases hk : eventKind e.type
  case textDelta =>
    rcases hT : st.currentTextId with _ | tid <;>
      · simp only [streamStep, hk, hT]
        exact ⟨_, rfl, by simp [countStreamStarts]⟩
  case textDone =>
    rcases hT : st.currentTextId with _ | tid <;>
      · simp only [streamStep, hk, hT]
        first
        | exact ⟨_, rfl, by simp [countStreamStarts]⟩
        | exact ⟨[], by simp, rfl⟩
  case reasoningDelta =>
    rcases hR : st.currentReasoningId with _ | rid <;>
      · simp only [streamStep, hk, hR]
        exact ⟨_, rfl, by simp [countStreamStarts]⟩
  case reasoningDone =>
    rcases hR : st.currentReasoningId with _ | rid <;>
      · simp only [streamStep, hk, hR]
        first
        | exact ⟨_, rfl, by simp [countStreamStarts]⟩
        | exact ⟨[], by simp, rfl⟩
  case itemAdded =>
    rcases hi : e.item with _ | item
    · simp only [streamStep, hk, hi]
      exact ⟨[], by simp, rfl⟩
    · rcases hn : item.name with _ | n
      · simp only [streamStep, hk, hi, hn]
        exact ⟨[], by simp, rfl⟩
      · by_cases hcond : item.type = some "function_call" ∧ ¬ n = ""
        · rcases ho : orOpt item.id e.item_id with _ | iid
          · simp only [streamStep, hk, hi, hn, ho, if_pos hcond]
            exact ⟨[], by simp, rfl⟩
          · by_cases hii : ¬ iid = ""
            · simp only [streamStep, hk, hi, hn, ho, if_pos hcond, if_pos hii]
              exact ⟨_, rfl, by simp [countStreamStarts]⟩
            · simp only [streamStep, hk, hi, hn, ho, if_pos hcond, if_neg hii]
              exact ⟨[], by simp, rfl⟩
        · simp only [streamStep, hk, hi, hn, if_neg hcond]
          exact ⟨[], by simp, rfl⟩
  case argsDelta =>
    rcases hi : e.item_id with _ | iid
    · simp only [streamStep, hk, hi]
      exact ⟨[], by simp, rfl⟩
    · rcases hd : e.delta with _ | d
      · simp only [streamStep, hk, hi, hd]
        exact ⟨[], by simp, rfl⟩
      · by_cases hcond : ¬ iid = "" ∧ ¬ d = ""
        · simp only [streamStep, hk, hi, hd, if_pos hcond]
          exact ⟨_, rfl, by simp [countStreamStarts]⟩
        · simp only [streamStep, hk, hi, hd, if_neg hcond]
          exact ⟨[], by simp, rfl⟩
  case argsDone =>
    simp only [streamStep, hk]
    refine ⟨_, rfl, ?_⟩
    rw [countStreamStarts_append]
    have h1 : ∀ b : Bool, ∀ k : String,
        countStreamStarts (if b then [StreamPart.toolInputEnd k] else []) = 0 := by
      intro b k
      cases b <;> simp [countStreamStarts]
    simp [h1, countStreamStarts]
  case completed =>
    simp only [streamStep, hk]
    refine ⟨_, rfl, ?_⟩
    rcases hT : st.currentTextId with _ | tid <;>
      rcases hR : st.currentReasoningId with _ | rid <;>
        simp [hT, hR, countStreamStarts_append, countStreamStarts]
  case otherKind =>
    simp only [streamStep, hk]
    exact ⟨[], by simp, rfl⟩

theorem streamRun_append (w : List Warning) (includeRaw : Bool)
    (u : Nat → String) (st : StreamState) (a b : List EventRecord) :
    streamRun w includeRaw u st (a ++ b)
      = ((streamRun w includeRaw u (streamRun w includeRaw u st a).1 b).1,
         (streamRun w includeRaw u st a).2
           ++ (streamRun w includeRaw u (streamRun w includeRaw u st a).1 b).2) := by
  induction a generalizing st with
  | nil => simp [streamRun]
  | cons r t ih => simp [streamRun, ih]

/-- Once isFirstChunk is false it stays false and no further
stream-start is ever emitted. -/
theorem streamRun_no_start_of_not_first (w : List Warning) (includeRaw : Bool)
    (u : Nat → String) (rs : List EventRecord) (st : StreamState)
    (h : st.isFirstChunk = false) :
    countStreamStarts (streamRun w includeRaw u st rs).2 = 0
  ∧ (streamRun w includeRaw u st rs).1.isFirstChunk = false := by
  induction rs generalizing st with
  | nil => exact ⟨rfl, h⟩
  | cons r t ih =>
    have hstep : countStreamStarts (streamStep w includeRaw u st r).2 = 0
        ∧ (streamStep w includeRaw u st r).1.isFirstChunk = false := by
      cases r with
      | empty => exact ⟨rfl, h⟩
      | doneMarker => exact ⟨rfl, h⟩
      | malformed => exact ⟨rfl, h⟩
      | parsed e =>
        obtain ⟨tail, heq, hc⟩ := streamStep_parsed_decomp w includeRaw u st e
        refine ⟨?_, streamStep_parsed_flag w includeRaw u st e⟩
        rw [heq, h]
        cases includeRaw <;> simp [countStreamStarts_append, countStreamStarts, hc]
    have ihr := ih (streamStep w includeRaw u st r).1 hstep.2
    rw [streamRun]
    constructor
    · rw [countStreamStarts_append, hstep.1, ihr.1]
    · exact ihr.2

theorem countStreamStarts_replicate_error (n : Nat) :
    countStreamStarts (List.replicate n StreamPart.error) = 0 := by
  induction n with
  | zero => rfl
  | succ m ih => simp [List.replicate_succ, countStreamStarts, ih]

/-- C7 amended: once the record sequence reaches its first JSON-parsed
record, the streaming translator emits exactly one stream-start carrying
the request warnings, in that record.s output, preceded only by the
error events of earlier malformed records (skipped records emit
nothing); no stream-start is emitted before or after, however many
records follow. -/
theorem c7_stream_start_amended (w : List Warning) (includeRaw : Bool)
    (u : Nat → String) (pre rest : List EventRecord) (e : ParsedEvent)
    (hpre : ∀ r ∈ pre, isParsedRecord r = false) :
    ∃ tail,
      (streamRun w includeRaw u initStreamState (pre ++ .parsed e :: rest)).2
        = List.replicate (pre.countP isMalformedRecord) StreamPart.error
            ++ StreamPart.streamStart w :: tail
      ∧ countStreamStarts tail = 0
      ∧ countStreamStarts
          (streamRun w includeRaw u initStreamState (pre ++ .parsed e :: rest)).2 = 1 := by
  obtain ⟨tail1, heq1, hc1⟩ := streamStep_parsed_decomp w includeRaw u initStreamState e
  have hflag := streamStep_parsed_flag w includeRaw u initStreamState e
  obtain ⟨hc2, _⟩ := streamRun_no_start_of_not_first w includeRaw u rest
      (streamStep w includeRaw u initStreamState (.parsed e)).1 hflag
  have hrawc : countStreamStarts (if includeRaw then [StreamPart.raw e] else []) = 0 := by
    cases includeRaw <;> simp [countStreamStarts]
  have hfirst : initStreamState.isFirstChunk = true := rfl
  refine ⟨(if includeRaw then [StreamPart.raw e] else [])
      ++ (tail1
        ++ (streamRun w includeRaw u
              (streamStep w includeRaw u initStreamState (.parsed e)).1 rest).2),
    ?_, ?_, ?_⟩
  · rw [streamRun_append, streamRun_nonparsed w includeRaw u initStreamState pre hpre]
    simp only [streamRun, heq1, hfirst, if_true]
    simp [List.append_assoc]
  · simp only [countStreamStarts_append, hrawc, hc1, hc2]
  · rw [streamRun_append, streamRun_nonparsed w includeRaw u initStreamState pre hpre]
    simp only [streamRun]
    simp only [countStreamStarts_append, countStreamStarts_replicate_error, hc2]
    rw [heq1, hfirst]
    simp only [if_true, countStreamStarts_append, hrawc, hc1]
    simp [countStreamStarts]

def c7wE : ParsedEvent := { type := some "response.output_text.delta", delta := some "x" }

/-- C7 witness: a malformed record followed by a parsed text delta and a
completion; the single stream-start follows the one error event. -/
theorem c7_stream_start_witness :
    (∀ r ∈ [EventRecord.malformed], isParsedRecord r = false)
  ∧ ∃ tail,
      (streamRun [] false natName initStreamState
          ([EventRecord.malformed] ++ .parsed c7wE :: [mkCompleted "completed"])).2
        = List.replicate 1 StreamPart.error ++ StreamPart.streamStart [] :: tail
      ∧ countStreamStarts tail = 0
      ∧ countStreamStarts
          (streamRun [] false natName initStreamState
            ([EventRecord.malformed] ++ .parsed c7wE :: [mkCompleted "completed"])).2 = 1 :=
  ⟨by decide, by
    have hc : ([EventRecord.malformed].countP isMalformedRecord) = 1 := by decide
    have h := c7_stream_start_amended [] false natName [EventRecord.malformed]
      [mkCompleted "completed"] c7wE (by decide)
    rw [hc] at h
    exact h⟩

/-- C7 counterexample: when the first record of the request is
malformed, the error event it produces precedes the stream-start, which
is emitted only at the first successfully parsed record; so stream-start
is not caused by the first non-empty record and does not precede every
other emitted event. -/
theorem c7_counterexample :
    (streamRun [] false natName initStreamState [.malformed, .parsed c7wE]).2
      = [.error, .streamStart [], .textStart "0", .textDelta "0" "x"]
  ∧ (streamRun [] false natName initStreamState [.malformed, .parsed c7wE]).2.head?
      = some StreamPart.error
  ∧ countStreamStarts
      (streamRun [] false natName initStreamState [.malformed, .parsed c7wE]).2 = 1 := by
  decide

-- ── C1: streaming and buffered mode equivalence ────────────────────────

/-- Tool calls agreeing in everything except possibly the generated
toolCallId (which falls back to a random uuid when the done record
carries neither call_id nor item_id). -/
def tcSim (a b : ToolCallItem) : Prop :=
  a.toolName = b.toolName ∧ a.input = b.input

/-- A record that cannot force the random-uuid fallback for the
toolCallId: any record other than an arguments-done record missing both
call_id and item_id. -/
def goodRecord : EventRecord → Bool
  | .parsed e =>
      if eventKind e.type = .argsDone then e.call_id.isSome || e.item_id.isSome
      else true
  | _ => true

def isCompletedRecord : EventRecord → Bool
  | .parsed e => eventKind e.type == .completed
  | _ => false

theorem orOpt_eq_none (a b : Option String) :
    orOpt a b = none ↔ a = none ∧ b = none := by
  cases a <;> simp [orOpt]

-- Conditional single-part prefixes are invisible to the observations.

theorem deltasOf_cond_start (b : Bool) (w : List Warning) (X : List StreamPart) :
    deltasOf ((if b then [StreamPart.streamStart w] else []) ++ X) = deltasOf X := by
  cases b <;> simp [deltasOf]

theorem deltasOf_cond_raw (b : Bool) (e : ParsedEvent) (X : List StreamPart) :
    deltasOf ((if b then [StreamPart.raw e] else []) ++ X) = deltasOf X := by
  cases b <;> simp [deltasOf]

theorem toolCallsOf_cond_start (b : Bool) (w : List Warning) (X : List StreamPart) :
    toolCallsOf ((if b then [StreamPart.streamStart w] else []) ++ X) = toolCallsOf X := by
  cases b <;> simp [toolCallsOf]

theorem toolCallsOf_cond_raw (b : Bool) (e : ParsedEvent) (X : List StreamPart) :
    toolCallsOf ((if b then [StreamPart.raw e] else []) ++ X) = toolCallsOf X := by
  cases b <;> simp [toolCallsOf]

theorem finishesOf_cond_start (b : Bool) (w : List Warning) (X : List StreamPart) :
    finishesOf ((if b then [StreamPart.streamStart w] else []) ++ X) = finishesOf X := by
  cases b <;> simp [finishesOf]

theorem finishesOf_cond_raw (b : Bool) (e : ParsedEvent) (X : List StreamPart) :
    finishesOf ((if b then [StreamPart.raw e] else []) ++ X) = finishesOf X := by
  cases b <;> simp [finishesOf]

/-- The two modes keep their per-item name and argument maps in
lockstep. -/
theorem step_info_sim (w : List Warning) (includeRaw : Bool) (u v : Nat → String)
    (ss : StreamState) (gs : GenState) (r : EventRecord)
    (hInfo : ss.toolCallInfo = gs.toolCallInfo)
    (hArgs : ss.functionCallArgs = gs.functionCallArgs) :
    (streamStep w includeRaw u ss r).1.toolCallInfo = (genStep v gs r).toolCallInfo
  ∧ (streamStep w includeRaw u ss r).1.functionCallArgs
      = (genStep v gs r).functionCallArgs := by
  cases r with
  | empty => exact ⟨hInfo, hArgs⟩
  | doneMarker => exact ⟨hInfo, hArgs⟩
  | malformed => exact ⟨hInfo, hArgs⟩
  | parsed e =>
    rcases hk : eventKind e.type
    case textDelta =>
      rcases hT : ss.currentTextId with _ | tid <;>
        simp [streamStep, genStep, hk, hT, hInfo, hArgs]
    case textDone =>
      rcases hT : ss.currentTextId with _ | tid <;>
        simp [streamStep, genStep, hk, hT, hInfo, hArgs]
    case reasoningDelta =>
      rcases hR : ss.currentReasoningId with _ | rid <;>
        simp [streamStep, genStep, hk, hR, hInfo, hArgs]
    case reasoningDone =>
      rcases hR : ss.currentReasoningId with _ | rid <;>
        simp [streamStep, genStep, hk, hR, hInfo, hArgs]
    case itemAdded =>
      rcases hi : e.item with _ | item
      · simp [streamStep, genStep, hk, hi, hInfo, hArgs]
      · rcases hn : item.name with _ | n
        · simp [streamStep, genStep, hk, hi, hn, hInfo, hArgs]
        · by_cases hcond : item.type = some "function_call" ∧ ¬ n = ""
          · rcases ho : orOpt item.id e.item_id with _ | iid
            · simp [streamStep, genStep, hk, hi, hn, hcond, ho, hInfo, hArgs]
            · by_cases hii : ¬ iid = "" <;>
                simp [streamStep, genStep, hk, hi, hn, hcond, ho, hii, hInfo, hArgs]
          · simp [streamStep, genStep, hk, hi, hn, hcond, hInfo, hArgs]
    case argsDelta =>
      rcases hi : e.item_id with _ | iid
      · simp [streamStep, genStep, hk, hi, hInfo, hArgs]
      · rcases hd : e.delta with _ | d
        · simp [streamStep, genStep, hk, hi, hd, hInfo, hArgs]
        · by_cases hcond : ¬ iid = "" ∧ ¬ d = "" <;>
            simp [streamStep, genStep, hk, hi, hd, hcond, hInfo, hArgs]
    case argsDone =>
      simp [streamStep, genStep, hk, hInfo, hArgs]
    case completed =>
      simp [streamStep, genStep, hk, hInfo, hArgs]
    case otherKind =>
      simp [streamStep, genStep, hk, hInfo, hArgs]

theorem deltasOf_cond_tie (b : Bool) (k : String) (X : List StreamPart) :
    deltasOf ((if b then [StreamPart.toolInputEnd k] else []) ++ X) = deltasOf X := by
  cases b <;> simp [deltasOf]

theorem toolCallsOf_cond_tie (b : Bool) (k : String) (X : List StreamPart) :
    toolCallsOf ((if b then [StreamPart.toolInputEnd k] else []) ++ X) = toolCallsOf X := by
  cases b <;> simp [toolCallsOf]

theorem finishesOf_cond_tie (b : Bool) (k : String) (X : List StreamPart) :
    finishesOf ((if b then [StreamPart.toolInputEnd k] else []) ++ X) = finishesOf X := by
  cases b <;> simp [finishesOf]

theorem deltasOf_cond_raw_nil (b : Bool) (e : ParsedEvent) :
    deltasOf (if b then [StreamPart.raw e] else []) = "" := by
  cases b <;> simp [deltasOf]

theorem toolCallsOf_cond_raw_nil (b : Bool) (e : ParsedEvent) :
    toolCallsOf (if b then [StreamPart.raw e] else []) = [] := by
  cases b <;> simp [toolCallsOf]

theorem finishesOf_cond_raw_nil (b : Bool) (e : ParsedEvent) :
    finishesOf (if b then [StreamPart.raw e] else []) = [] := by
  cases b <;> simp [finishesOf]

/-- The buffered text accumulator advances by exactly the text deltas
the streaming mode emits for the same record. -/
theorem step_text_sim (w : List Warning) (includeRaw : Bool) (u v : Nat → String)
    (ss : StreamState) (gs : GenState) (r : EventRecord) :
    (genStep v gs r).accumulatedText
      = gs.accumulatedText ++ deltasOf (streamStep w includeRaw u ss r).2 := by
  cases r with
  | empty => simp [streamStep, genStep, deltasOf, deltasOf_cond_raw_nil, String.append_empty]
  | doneMarker => simp [streamStep, genStep, deltasOf, deltasOf_cond_raw_nil, String.append_empty]
  | malformed => simp [streamStep, genStep, deltasOf, deltasOf_cond_raw_nil, String.append_empty]
  | parsed e =>
    rcases hk : eventKind e.type
    case textDelta =>
      rcases hT : ss.currentTextId with _ | tid <;>
        simp [streamStep, genStep, hk, hT, deltasOf_cond_start, deltasOf_cond_raw,
          deltasOf, deltasOf_cond_raw_nil, String.append_empty]
    case textDone =>
      rcases hT : ss.currentTextId with _ | tid <;>
        simp [streamStep, genStep, hk, hT, deltasOf_cond_start, deltasOf_cond_raw,
          deltasOf, deltasOf_cond_raw_nil, String.append_empty]
    case reasoningDelta =>
      rcases hR : ss.currentReasoningId with _ | rid <;>
        simp [streamStep, genStep, hk, hR, deltasOf_cond_start, deltasOf_cond_raw,
          deltasOf, deltasOf_cond_raw_nil, String.append_empty]
    case reasoningDone =>
      rcases hR : ss.currentReasoningId with _ | rid <;>
        simp [streamStep, genStep, hk, hR, deltasOf_cond_start, deltasOf_cond_raw,
          deltasOf, deltasOf_cond_raw_nil, String.append_empty]
    case itemAdded =>
      rcases hi : e.item with _ | item
      · simp [streamStep, genStep, hk, hi, deltasOf_cond_start, deltasOf_cond_raw,
          deltasOf, deltasOf_cond_raw_nil, String.append_empty]
      · rcases hn : item.name with _ | n
        · simp [streamStep, genStep, hk, hi, hn, deltasOf_cond_start, deltasOf_cond_raw,
            deltasOf, deltasOf_cond_raw_nil, String.append_empty]
        · by_cases hcond : item.type = some "function_call" ∧ ¬ n = ""
          · rcases ho : orOpt item.id e.item_id with _ | iid
            · simp [streamStep, genStep, hk, hi, hn, hcond, ho, deltasOf_cond_start,
                deltasOf_cond_raw, deltasOf, deltasOf_cond_raw_nil, String.append_empty]
            · by_cases hii : ¬ iid = "" <;>
                simp [streamStep, genStep, hk, hi, hn, hcond, ho, hii, deltasOf_cond_start,
                  deltasOf_cond_raw, deltasOf, deltasOf_cond_raw_nil, String.append_empty]
          · simp [streamStep, genStep, hk, hi, hn, hcond, deltasOf_cond_start,
              deltasOf_cond_raw, deltasOf, deltasOf_cond_raw_nil, String.append_empty]
    case argsDelta =>
      rcases hi : e.item_id with _ | iid
      · simp [streamStep, genStep, hk, hi, deltasOf_cond_start, deltasOf_cond_raw,
          deltasOf, deltasOf_cond_raw_nil, String.append_empty]
      · rcases hd : e.delta with _ | d
        · simp [streamStep, genStep, hk, hi, hd, deltasOf_cond_start, deltasOf_cond_raw,
            deltasOf, deltasOf_cond_raw_nil, String.append_empty]
        · by_cases hcond : ¬ iid = "" ∧ ¬ d = "" <;>
            simp [streamStep, genStep, hk, hi, hd, hcond, deltasOf_cond_start,
              deltasOf_cond_raw, deltasOf, deltasOf_cond_raw_nil, String.append_empty]
    case argsDone =>
      simp [streamStep, genStep, hk, deltasOf_cond_start, deltasOf_cond_raw,
        deltasOf_cond_tie, deltasOf, deltasOf_cond_raw_nil, String.append_empty]
    case completed =>
      rcases hT : ss.currentTextId with _ | tid <;>
        rcases hR : ss.currentReasoningId with _ | rid <;>
          simp [streamStep, genStep, hk, hT, hR, deltasOf_cond_start, deltasOf_cond_raw,
            deltasOf, deltasOf_cond_raw_nil, String.append_empty]
    case otherKind =>
      simp [streamStep, genStep, hk, deltasOf_cond_start, deltasOf_cond_raw,
        deltasOf, deltasOf_cond_raw_nil, String.append_empty]

/-- Per-step finish observation: a finish pair is emitted exactly for a
completed record and carries the same reason and usage the buffered
mode stores. -/
theorem step_finish_sim (w : List Warning) (includeRaw : Bool) (u v : Nat → String)
    (ss : StreamState) (gs : GenState) (r : EventRecord) :
    if isCompletedRecord r then
      finishesOf (streamStep w includeRaw u ss r).2
        = [((genStep v gs r).finishReason, (genStep v gs r).usage)]
    else
      finishesOf (streamStep w includeRaw u ss r).2 = []
        ∧ (genStep v gs r).finishReason = gs.finishReason
        ∧ (genStep v gs r).usage = gs.usage := by
  cases r with
  | empty => simp [streamStep, genStep, finishesOf, isCompletedRecord]
  | doneMarker => simp [streamStep, genStep, finishesOf, isCompletedRecord]
  | malformed => simp [streamStep, genStep, finishesOf, isCompletedRecord]
  | parsed e =>
    rcases hk : eventKind e.type
    case textDelta =>
      rcases hT : ss.currentTextId with _ | tid <;>
        simp [streamStep, genStep, hk, hT, isCompletedRecord, finishesOf_cond_start,
          finishesOf_cond_raw, finishesOf_cond_raw_nil, finishesOf]
    case textDone =>
      rcases hT : ss.currentTextId with _ | tid <;>
        simp [streamStep, genStep, hk, hT, isCompletedRecord, finishesOf_cond_start,
          finishesOf_cond_raw, finishesOf_cond_raw_nil, finishesOf]
    case reasoningDelta =>
      rcases hR : ss.currentReasoningId with _ | rid <;>
        simp [streamStep, genStep, hk, hR, isCompletedRecord, finishesOf_cond_start,
          finishesOf_cond_raw, finishesOf_cond_raw_nil, finishesOf]
    case reasoningDone =>
      rcases hR : ss.currentReasoningId with _ | rid <;>
        simp [streamStep, genStep, hk, hR, isCompletedRecord, finishesOf_cond_start,
          finishesOf_cond_raw, finishesOf_cond_raw_nil, finishesOf]
    case itemAdded =>
      rcases hi : e.item with _ | item
      · simp [streamStep, genStep, hk, hi, isCompletedRecord, finishesOf_cond_start,
          finishesOf_cond_raw, finishesOf_cond_raw_nil, finishesOf]
      · rcases hn : item.name with _ | n
        · simp [streamStep, genStep, hk, hi, hn, isCompletedRecord, finishesOf_cond_start,
            finishesOf_cond_raw, finishesOf_cond_raw_nil, finishesOf]
        · by_cases hcond : item.type = some "function_call" ∧ ¬ n = ""
          · rcases ho : orOpt item.id e.item_id with _ | iid
            · simp [streamStep, genStep, hk, hi, hn, hcond, ho, isCompletedRecord,
                finishesOf_cond_start, finishesOf_cond_raw, finishesOf_cond_raw_nil, finishesOf]
            · by_cases hii : ¬ iid = "" <;>
                simp [streamStep, genStep, hk, hi, hn, hcond, ho, hii, isCompletedRecord,
                  finishesOf_cond_start, finishesOf_cond_raw, finishesOf_cond_raw_nil, finishesOf]
          · simp [streamStep, genStep, hk, hi, hn, hcond, isCompletedRecord,
              finishesOf_cond_start, finishesOf_cond_raw, finishesOf_cond_raw_nil, finishesOf]
    case argsDelta =>
      rcases hi : e.item_id with _ | iid
      · simp [streamStep, genStep, hk, hi, isCompletedRecord, finishesOf_cond_start,
          finishesOf_cond_raw, finishesOf_cond_raw_nil, finishesOf]
      · rcases hd : e.delta with _ | d
        · simp [streamStep, genStep, hk, hi, hd, isCompletedRecord, finishesOf_cond_start,
            finishesOf_cond_raw, finishesOf_cond_raw_nil, finishesOf]
        · by_cases hcond : ¬ iid = "" ∧ ¬ d = "" <;>
            simp [streamStep, genStep, hk, hi, hd, hcond, isCompletedRecord,
              finishesOf_cond_start, finishesOf_cond_raw, finishesOf_cond_raw_nil, finishesOf]
    case argsDone =>
      simp [streamStep, genStep, hk, isCompletedRecord, finishesOf_cond_start,
        finishesOf_cond_raw, finishesOf_cond_tie, finishesOf_cond_raw_nil, finishesOf]
    case completed =>
      rcases hT : ss.currentTextId with _ | tid <;>
        rcases hR : ss.currentReasoningId with _ | rid <;>
          simp [streamStep, genStep, hk, hT, hR, isCompletedRecord, finishesOf_cond_start,
            finishesOf_cond_raw, finishesOf_cond_raw_nil, finishesOf]
    case otherKind =>
      simp [streamStep, genStep, hk, isCompletedRecord, finishesOf_cond_start,
        finishesOf_cond_raw, finishesOf_cond_raw_nil, finishesOf]

-- The components of the tool call resolved by an arguments-done record,
-- written once as functions of the per-item maps so that both modes can
-- be compared.

def doneTruthy (e : ParsedEvent) : Bool :=
  match e.item_id with
  | some s => decide (¬ s = "")
  | none => false

def doneKey (e : ParsedEvent) : String := e.item_id.getD ""

def doneName (info : List (String × String)) (e : ParsedEvent) : String :=
  (orOpt (if doneTruthy e then mapGet info (doneKey e) else none) e.name).getD "unknown"

def doneAccHit (fca : List (String × String)) (e : ParsedEvent) : Bool :=
  doneTruthy e && (mapGet fca (doneKey e)).isSome

def doneArgs (fca : List (String × String)) (e : ParsedEvent) : Option String :=
  match (if doneAccHit fca e
          then some (JsonVal.str ((mapGet fca (doneKey e)).getD ""))
          else e.arguments) with
  | some (.str s) => some s
  | some (.other r) => some r
  | none => none

theorem streamStep_argsDone_calls (w : List Warning) (includeRaw : Bool)
    (u : Nat → String) (ss : StreamState) (e : ParsedEvent)
    (hk : eventKind e.type = .argsDone) :
    toolCallsOf (streamStep w includeRaw u ss (.parsed e)).2
      = [⟨(match orOpt e.call_id e.item_id with
           | some c => c
           | none => u ss.uuidIdx),
          doneName ss.toolCallInfo e, doneArgs ss.functionCallArgs e⟩] := by
  rcases ho : orOpt e.call_id e.item_id with _ | c <;>
    simp [streamStep, hk, ho, toolCallsOf_cond_start, toolCallsOf_cond_raw,
      toolCallsOf_cond_tie, toolCallsOf, doneName, doneTruthy, doneKey,
      doneArgs, doneAccHit]

theorem genStep_argsDone_calls (v : Nat → String) (gs : GenState) (e : ParsedEvent)
    (hk : eventKind e.type = .argsDone) :
    (genStep v gs (.parsed e)).toolCalls
      = gs.toolCalls
        ++ [⟨(match orOpt e.call_id e.item_id with
              | some c => c
              | none => v gs.uuidIdx),
             doneName gs.toolCallInfo e, doneArgs gs.functionCallArgs e⟩] := by
  rcases ho : orOpt e.call_id e.item_id with _ | c <;>
    simp [genStep, hk, ho, doneName, doneTruthy, doneKey, doneArgs, doneAccHit]

theorem streamStep_no_calls (w : List Warning) (includeRaw : Bool)
    (u : Nat → String) (ss : StreamState) (e : ParsedEvent)
    (hk : ¬ eventKind e.type = .argsDone) :
    toolCallsOf (streamStep w includeRaw u ss (.parsed e)).2 = [] := by
  rcases hkk : eventKind e.type
  case argsDone => exact absurd hkk hk
  case textDelta =>
    rcases hT : ss.currentTextId with _ | tid <;>
      simp [streamStep, hkk, hT, toolCallsOf_cond_start, toolCallsOf_cond_raw,
        toolCallsOf_cond_raw_nil, toolCallsOf]
  case textDone =>
    rcases hT : ss.currentTextId with _ | tid <;>
      simp [streamStep, hkk, hT, toolCallsOf_cond_start, toolCallsOf_cond_raw,
        toolCallsOf_cond_raw_nil, toolCallsOf]
  case reasoningDelta =>
    rcases hR : ss.currentReasoningId with _ | rid <;>
      simp [streamStep, hkk, hR, toolCallsOf_cond_start, toolCallsOf_cond_raw,
        toolCallsOf_cond_raw_nil, toolCallsOf]
  case reasoningDone =>
    rcases hR : ss.currentReasoningId with _ | rid <;>
      simp [streamStep, hkk, hR, toolCallsOf_cond_start, toolCallsOf_cond_raw,
        toolCallsOf_cond_raw_nil, toolCallsOf]
  case itemAdded =>
    rcases hi : e.item with _ | item
    · simp [streamStep, hkk, hi, toolCallsOf_cond_start, toolCallsOf_cond_raw,
        toolCallsOf_cond_raw_nil, toolCallsOf]
    · rcases hn : item.name with _ | n
      · simp [streamStep, hkk, hi, hn, toolCallsOf_cond_start, toolCallsOf_cond_raw,
          toolCallsOf_cond_raw_nil, toolCallsOf]
      · by_cases hcond : item.type = some "function_call" ∧ ¬ n = ""
        · rcases ho : orOpt item.id e.item_id with _ | iid
          · simp [streamStep, hkk, hi, hn, hcond, ho, toolCallsOf_cond_start,
              toolCallsOf_cond_raw, toolCallsOf_cond_raw_nil, toolCallsOf]
          · by_cases hii : ¬ iid = "" <;>
              simp [streamStep, hkk, hi, hn, hcond, ho, hii, toolCallsOf_cond_start,
                toolCallsOf_cond_raw, toolCallsOf_cond_raw_nil, toolCallsOf]
        · simp [streamStep, hkk, hi, hn, hcond, toolCallsOf_cond_start,
            toolCallsOf_cond_raw, toolCallsOf_cond_raw_nil, toolCallsOf]
  case argsDelta =>
    rcases hi : e.item_id with _ | iid
    · simp [streamStep, hkk, hi, toolCallsOf_cond_start, toolCallsOf_cond_raw,
        toolCallsOf_cond_raw_nil, toolCallsOf]
    · rcases hd : e.delta with _ | d
      · simp [streamStep, hkk, hi, hd, toolCallsOf_cond_start, toolCallsOf_cond_raw,
          toolCallsOf_cond_raw_nil, toolCallsOf]
      · by_cases hcond : ¬ iid = "" ∧ ¬ d = "" <;>
          simp [streamStep, hkk, hi, hd, hcond, toolCallsOf_cond_start,
            toolCallsOf_cond_raw, toolCallsOf_cond_raw_nil, toolCallsOf]
  case completed =>
    rcases hT : ss.currentTextId with _ | tid <;>
      rcases hR : ss.currentReasoningId with _ | rid <;>
        simp [streamStep, hkk, hT, hR, toolCallsOf_cond_start, toolCallsOf_cond_raw,
          toolCallsOf_cond_raw_nil, toolCallsOf]
  case otherKind =>
    simp [streamStep, hkk, toolCallsOf_cond_start, toolCallsOf_cond_raw,
      toolCallsOf_cond_raw_nil, toolCallsOf]

theorem genStep_no_calls (v : Nat → String) (gs : GenState) (e : ParsedEvent)
    (hk : ¬ eventKind e.type = .argsDone) :
    (genStep v gs (.parsed e)).toolCalls = gs.toolCalls := by
  rcases hkk : eventKind e.type
  case argsDone => exact absurd hkk hk
  all_goals
    first
    | (simp only [genStep, hkk]; (repeat' split) <;> rfl)
    | simp [genStep, hkk]

/-- Per-step tool-call observation: the buffered mode appends exactly
the tool calls streaming emits, equal except possibly in the generated
toolCallId, and fully equal when the record carries a call_id or
item_id. -/
theorem step_calls_sim (w : List Warning) (includeRaw : Bool) (u v : Nat → String)
    (ss : StreamState) (gs : GenState) (r : EventRecord)
    (hInfo : ss.toolCallInfo = gs.toolCallInfo)
    (hArgs : ss.functionCallArgs = gs.functionCallArgs) :
    ∃ nc, (genStep v gs r).toolCalls = gs.toolCalls ++ nc
      ∧ List.Forall₂ tcSim (toolCallsOf (streamStep w includeRaw u ss r).2) nc
      ∧ (goodRecord r = true → toolCallsOf (streamStep w includeRaw u ss r).2 = nc) := by
  cases r with
  | empty =>
    exact ⟨[], by simp [genStep], by simp [streamStep, toolCallsOf],
      fun _ => by simp [streamStep, toolCallsOf]⟩
  | doneMarker =>
    exact ⟨[], by simp [genStep], by simp [streamStep, toolCallsOf],
      fun _ => by simp [streamStep, toolCallsOf]⟩
  | malformed =>
    exact ⟨[], by simp [genStep], by simp [streamStep, toolCallsOf],
      fun _ => by simp [streamStep, toolCallsOf]⟩
  | parsed e =>
    by_cases hk : eventKind e.type = .argsDone
    · refine ⟨[⟨(match orOpt e.call_id e.item_id with
                 | some c => c
                 | none => v gs.uuidIdx),
                doneName gs.toolCallInfo e, doneArgs gs.functionCallArgs e⟩],
        genStep_argsDone_calls v gs e hk, ?_, ?_⟩
      · rw [streamStep_argsDone_calls w includeRaw u ss e hk, hInfo, hArgs]
        exact List.Forall₂.cons ⟨rfl, rfl⟩ List.Forall₂.nil
      · intro hgood
        rw [streamStep_argsDone_calls w includeRaw u ss e hk, hInfo, hArgs]
        rcases ho : orOpt e.call_id e.item_id with _ | c
        · exfalso
          obtain ⟨h1, h2⟩ := (orOpt_eq_none e.call_id e.item_id).1 ho
          simp [goodRecord, hk, h1, h2] at hgood
        · simp [ho]
    · exact ⟨[], by simp [genStep_no_calls v gs e hk],
        by simp [streamStep_no_calls w includeRaw u ss e hk],
        fun _ => by simp [streamStep_no_calls w includeRaw u ss e hk]⟩

/-- Whole-run simulation between the streaming and buffered
translators, from coupled states. -/
theorem run_sim (w : List Warning) (includeRaw : Bool) (u v : Nat → String)
    (rs : List EventRecord) :
    ∀ (ss : StreamState) (gs : GenState),
      ss.toolCallInfo = gs.toolCallInfo →
      ss.functionCallArgs = gs.functionCallArgs →
      (streamRun w includeRaw u ss rs).1.toolCallInfo = (genRun v gs rs).toolCallInfo
    ∧ (streamRun w includeRaw u ss rs).1.functionCallArgs
        = (genRun v gs rs).functionCallArgs
    ∧ (genRun v gs rs).accumulatedText
        = gs.accumulatedText ++ deltasOf (streamRun w includeRaw u ss rs).2
    ∧ (∃ nc, (genRun v gs rs).toolCalls = gs.toolCalls ++ nc
        ∧ List.Forall₂ tcSim (toolCallsOf (streamRun w includeRaw u ss rs).2) nc
        ∧ ((∀ r ∈ rs, goodRecord r = true)
            → toolCallsOf (streamRun w includeRaw u ss rs).2 = nc))
    ∧ (if rs.any isCompletedRecord then
         (finishesOf (streamRun w includeRaw u ss rs).2).getLast?
           = some ((genRun v gs rs).finishReason, (genRun v gs rs).usage)
       else
         finishesOf (streamRun w includeRaw u ss rs).2 = []
           ∧ (genRun v gs rs).finishReason = gs.finishReason
           ∧ (genRun v gs rs).usage = gs.usage) := by
  induction rs with
  | nil =>
    intro ss gs hInfo hArgs
    refine ⟨hInfo, hArgs, by simp [streamRun, genRun, deltasOf, String.append_empty],
      ⟨[], by simp [genRun], by simp [streamRun, toolCallsOf], fun _ => rfl⟩, ?_⟩
    simp [streamRun, genRun, finishesOf]
  | cons r t ih =>
    intro ss gs hInfo hArgs
    obtain ⟨hI1, hI2⟩ := step_info_sim w includeRaw u v ss gs r hInfo hArgs
    have hT := step_text_sim w includeRaw u v ss gs r
    obtain ⟨nc1, hg1, hsim1, hgood1⟩ := step_calls_sim w includeRaw u v ss gs r hInfo hArgs
    have hF := step_finish_sim w includeRaw u v ss gs r
    obtain ⟨ihInfo, ihArgs, ihText, ⟨nc2, ihg2, ihsim2, ihgood2⟩, ihFin⟩ :=
      ih (streamStep w includeRaw u ss r).1 (genStep v gs r) hI1 hI2
    have hrunE : (streamRun w includeRaw u ss (r :: t)).2
        = (streamStep w includeRaw u ss r).2
          ++ (streamRun w includeRaw u (streamStep w includeRaw u ss r).1 t).2 := by
      simp [streamRun]
    have hrunS : (streamRun w includeRaw u ss (r :: t)).1
        = (streamRun w includeRaw u (streamStep w includeRaw u ss r).1 t).1 := by
      simp [streamRun]
    have hgen : genRun v gs (r :: t) = genRun v (genStep v gs r) t := rfl
    refine ⟨?_, ?_, ?_, ?_, ?_⟩
    · rw [hrunS, hgen]
      exact ihInfo
    · rw [hrunS, hgen]
      exact ihArgs
    · rw [hrunE, hgen, deltasOf_append, ihText, hT, String.append_assoc]
    · refine ⟨nc1 ++ nc2, ?_, ?_, ?_⟩
      · rw [hgen, ihg2, hg1, List.append_assoc]
      · rw [hrunE, toolCallsOf_append]
        exact List.rel_append hsim1 ihsim2
      · intro hgood
        rw [hrunE, toolCallsOf_append,
          hgood1 (hgood r (List.mem_cons_self r t)),
          ihgood2 (fun x hx => hgood x (List.mem_cons_of_mem r hx))]
    · rw [hrunE, hgen, finishesOf_append]
      by_cases hr : isCompletedRecord r = true
      · rw [hr] at hF
        simp only [if_true] at hF
        by_cases hA : t.any isCompletedRecord = true
        · rw [hA] at ihFin
          simp only [if_true] at ihFin
          have hne : finishesOf (streamRun w includeRaw u
              (streamStep w includeRaw u ss r).1 t).2 ≠ [] := by
            intro hnil
            rw [hnil] at ihFin
            simp at ihFin
          have hany : (r :: t).any isCompletedRecord = true := by simp [hr]
          rw [hany]
          simp only [if_true]
          rw [List.getLast?_append_of_ne_nil _ hne]
          exact ihFin
        · simp only [Bool.not_eq_true] at hA
          rw [hA] at ihFin
          simp only [if_false, Bool.false_eq_true] at ihFin
          obtain ⟨hnil2, hfr2, hus2⟩ := ihFin
          have hany : (r :: t).any isCompletedRecord = true := by simp [hr]
          rw [hany]
          simp only [if_true]
          rw [hnil2, hF, hfr2, hus2]
          simp
      · simp only [Bool.not_eq_true] at hr
        rw [hr] at hF
        simp only [if_false, Bool.false_eq_true] at hF
        obtain ⟨hnil1, hfr1, hus1⟩ := hF
        by_cases hA : t.any isCompletedRecord = true
        · have hany : (r :: t).any isCompletedRecord = true := by simp [hA]
          rw [hany]
          simp only [if_true]
          rw [hA] at ihFin
          simp only [if_true] at ihFin
          rw [hnil1]
          simpa using ihFin
        · simp only [Bool.not_eq_true] at hA
          have hany : (r :: t).any isCompletedRecord = false := by simp [hr, hA]
          rw [hany]
          rw [hA] at ihFin
          simp only [if_false, Bool.false_eq_true] at ihFin
          obtain ⟨hnil2, hfr2, hus2⟩ := ihFin
          simp only [if_false, Bool.false_eq_true]
          exact ⟨by rw [hnil1, hnil2]; rfl, by rw [hfr2, hfr1], by rw [hus2, hus1]⟩

/-- C1 amended: for every record sequence the two modes produce the same
final text; their tool-call lists agree in order, toolName and input,
and agree fully (including toolCallId) when every arguments-done record
carries a call_id or item_id; when a completed record is present, the
last streamed finish event carries exactly the buffered finish reason
and usage, and when none is present the stream emits no finish while the
buffered mode reports the defaults. -/
theorem c1_mode_equivalence (w : List Warning) (includeRaw : Bool)
    (u v : Nat → String) (rs : List EventRecord) :
    deltasOf (streamRun w includeRaw u initStreamState rs).2
        = (genRun v initGenState rs).accumulatedText
  ∧ List.Forall₂ tcSim (toolCallsOf (streamRun w includeRaw u initStreamState rs).2)
      (genRun v initGenState rs).toolCalls
  ∧ ((∀ r ∈ rs, goodRecord r = true)
      → toolCallsOf (streamRun w includeRaw u initStreamState rs).2
          = (genRun v initGenState rs).toolCalls)
  ∧ (rs.any isCompletedRecord = true
      → (finishesOf (streamRun w includeRaw u initStreamState rs).2).getLast?
          = some ((genRun v initGenState rs).finishReason,
                  (genRun v initGenState rs).usage))
  ∧ (rs.any isCompletedRecord = false
      → finishesOf (streamRun w includeRaw u initStreamState rs).2 = []
        ∧ (genRun v initGenState rs).finishReason = mapFinishReason "stop"
        ∧ (genRun v initGenState rs).usage = emptyUsage) := by
  obtain ⟨h1, h2, h3, ⟨nc, hg, hsim, hgood⟩, h5⟩ :=
    run_sim w includeRaw u v rs initStreamState initGenState rfl rfl
  have hnc : (genRun v initGenState rs).toolCalls = nc := by
    rw [hg]
    simp [initGenState]
  refine ⟨?_, ?_, ?_, ?_, ?_⟩
  · rw [h3]
    simp [initGenState, String.empty_append]
  · rw [hnc]
    exact hsim
  · intro hg2
    rw [hnc]
    exact hgood hg2
  · intro hA
    rw [hA] at h5
    simpa using h5
  · intro hA
    rw [hA] at h5
    simp only [if_false, Bool.false_eq_true] at h5
    exact ⟨h5.1, h5.2.1, h5.2.2⟩

def c1wRecords : List EventRecord :=
  [mkTextDelta "Hi", mkItemAdded "item1" "getWeather",
   mkArgsDelta "item1" "args", mkArgsDone "item1", mkCompleted "completed"]

/-- C1 witness: a complete good sequence (text, a named tool call built
from deltas, completion), on which the two modes agree exactly. -/
theorem c1_mode_equivalence_witness :
    (∀ r ∈ c1wRecords, goodRecord r = true)
  ∧ (c1wRecords.any isCompletedRecord = true)
  ∧ toolCallsOf (streamRun [] false natName initStreamState c1wRecords).2
      = (genRun natName initGenState c1wRecords).toolCalls
  ∧ (finishesOf (streamRun [] false natName initStreamState c1wRecords).2).getLast?
      = some ((genRun natName initGenState c1wRecords).finishReason,
              (genRun natName initGenState c1wRecords).usage)
  ∧ deltasOf (streamRun [] false natName initStreamState c1wRecords).2
      = (genRun natName initGenState c1wRecords).accumulatedText := by
  obtain ⟨h1, h2, h3, h4, h5⟩ := c1_mode_equivalence [] false natName natName c1wRecords
  exact ⟨by decide, by decide, h3 (by decide), h4 (by decide), h1⟩

def c1xRecords : List EventRecord :=
  [mkTextDelta "x", .parsed { type := some "response.function_call_arguments.done" }]

/-- C1 counterexample: an arguments-done record without call_id and
item_id receives a random uuid as toolCallId; because streaming also
consumes a uuid for the preceding text segment, the two modes disagree
on the toolCallId even with identical uuid supplies.  Moreover, without
a completed record the buffered mode reports default finish reason and
usage while streaming emits no finish event at all. -/
theorem c1_counterexample :
    toolCallsOf (streamRun [] false natName initStreamState c1xRecords).2
        = [⟨"1", "unknown", none⟩]
  ∧ (genRun natName initGenState c1xRecords).toolCalls = [⟨"0", "unknown", none⟩]
  ∧ ¬ toolCallsOf (streamRun [] false natName initStreamState c1xRecords).2
        = (genRun natName initGenState c1xRecords).toolCalls
  ∧ finishesOf (streamRun [] false natName initStreamState [mkTextDelta "x"]).2 = []
  ∧ (genRun natName initGenState [mkTextDelta "x"]).finishReason = ⟨"stop", "stop"⟩
  ∧ (genRun natName initGenState [mkTextDelta "x"]).usage = emptyUsage := by
  decide

-- ── C2: segment open/close discipline ──────────────────────────────────

/-- State of the well-formedness checker: the open text segment id, the
open reasoning segment id, and every id ever started. -/
structure WfState where
  openT : Option String
  openR : Option String
  used : List String
deriving DecidableEq, Repr

/-- One checker step.  It accepts a text-start or reasoning-start only
when no segment of that family is open and the id is globally fresh, a
text-end or reasoning-end only when it matches the open segment of its
family, and a finish only when no segment is open; every other part is
ignored.  A run succeeding on an event sequence therefore certifies that
every text-start or reasoning-start emitted before a finish is closed by
exactly one matching end before that finish. -/
def wfStep (s : WfState) (ev : StreamPart) : Option WfState :=
  match ev with
  | .textStart id =>
      if s.openT = none ∧ ¬ id ∈ s.used then
        some { s with openT := some id, used := id :: s.used }
      else none
  | .textEnd id =>
      if s.openT = some id then some { s with openT := none } else none
  | .reasoningStart id =>
      if s.openR = none ∧ ¬ id ∈ s.used then
        some { s with openR := some id, used := id :: s.used }
      else none
  | .reasoningEnd id =>
      if s.openR = some id then some { s with openR := none } else none
  | .finish _ _ =>
      if s.openT = none ∧ s.openR = none then some s else none
  | _ => some s

def wfRun : WfState → List StreamPart → Option WfState
  | s, [] => some s
  | s, ev :: rest =>
    match wfStep s ev with
    | some s1 => wfRun s1 rest
    | none => none

theorem wfRun_append (s : WfState) (a b : List StreamPart) :
    wfRun s (a ++ b) = (wfRun s a).bind (fun s1 => wfRun s1 b) := by
  induction a generalizing s with
  | nil => simp [wfRun]
  | cons ev t ih =>
    simp only [List.cons_append, wfRun]
    cases wfStep s ev <;> simp [ih]

theorem wfRun_pre (s : WfState) (b1 b2 : Bool) (w : List Warning)
    (e : ParsedEvent) (X : List StreamPart) :
    wfRun s (((if b1 then [StreamPart.streamStart w] else [])
        ++ (if b2 then [StreamPart.raw e] else [])) ++ X) = wfRun s X := by
  cases b1 <;> cases b2 <;> simp [wfRun, wfStep]

theorem wfRun_neutral_done_tail (s : WfState) (b : Bool) (k a n : String)
    (arg : Option String) :
    wfRun s ((if b then [StreamPart.toolInputEnd k] else [])
        ++ [StreamPart.toolCall a n arg]) = some s := by
  cases b <;> simp [wfRun, wfStep]

theorem wfRun_pre_nil (s : WfState) (b1 b2 : Bool) (w : List Warning)
    (e : ParsedEvent) :
    wfRun s ((if b1 then [StreamPart.streamStart w] else [])
        ++ (if b2 then [StreamPart.raw e] else [])) = some s := by
  cases b1 <;> cases b2 <;> simp [wfRun, wfStep]

/-- One translator step preserves the checker simulation: from a checker
state mirroring the open segment ids, with every used id a consumed
uuid, the emitted parts are accepted and the resulting checker state
mirrors the new open segment ids. -/
theorem wf_step_sim (w : List Warning) (includeRaw : Bool) (u : Nat → String)
    (hInj : Function.Injective u) (ss : StreamState) (r : EventRecord)
    (used : List String)
    (hused : ∀ x ∈ used, ∃ i, i < ss.uuidIdx ∧ x = u i) :
    ∃ used2,
      wfRun ⟨ss.currentTextId, ss.currentReasoningId, used⟩
          (streamStep w includeRaw u ss r).2
        = some ⟨(streamStep w includeRaw u ss r).1.currentTextId,
                (streamStep w includeRaw u ss r).1.currentReasoningId, used2⟩
      ∧ ∀ x ∈ used2, ∃ i, i < (streamStep w includeRaw u ss r).1.uuidIdx ∧ x = u i := by
  have hfresh : ¬ u ss.uuidIdx ∈ used := by
    intro hmem
    obtain ⟨i, hil, hie⟩ := hused _ hmem
    have := hInj hie
    omega
  cases r with
  | empty => exact ⟨used, rfl, hused⟩
  | doneMarker => exact ⟨used, rfl, hused⟩
  | malformed => exact ⟨used, by simp [wfRun, wfStep, streamStep], hused⟩
  | parsed e =>
    rcases hk : eventKind e.type
    case textDelta =>
      rcases hT : ss.currentTextId with _ | tid
      · refine ⟨u ss.uuidIdx :: used, ?_, ?_⟩
        · simp only [streamStep, hk, hT]
          first
          | (rw [wfRun_pre]; simp [wfRun, wfStep, hfresh])
          | exact wfRun_pre_nil _ _ _ _ _
        · have hidx : (streamStep w includeRaw u ss (.parsed e)).1.uuidIdx
              = ss.uuidIdx + 1 := by simp [streamStep, hk, hT]
          rw [hidx]
          intro x hx
          rw [List.mem_cons] at hx
          rcases hx with rfl | hx
          · exact ⟨ss.uuidIdx, by omega, rfl⟩
          · obtain ⟨i, hi, he⟩ := hused x hx
            exact ⟨i, by omega, he⟩
      · refine ⟨used, ?_, ?_⟩
        · simp only [streamStep, hk, hT]
          first
          | (rw [wfRun_pre]; simp [wfRun, wfStep, hT])
          | exact wfRun_pre_nil _ _ _ _ _
        · have hidx : (streamStep w includeRaw u ss (.parsed e)).1.uuidIdx
              = ss.uuidIdx := by simp [streamStep, hk, hT]
          rw [hidx]
          exact hused
    case textDone =>
      rcases hT : ss.currentTextId with _ | tid <;>
        · refine ⟨used, ?_, ?_⟩
          · simp only [streamStep, hk, hT]
            first
            | (rw [wfRun_pre]; simp [wfRun, wfStep, hT])
            | exact wfRun_pre_nil _ _ _ _ _
          · have hidx : (streamStep w includeRaw u ss (.parsed e)).1.uuidIdx
                = ss.uuidIdx := by simp [streamStep, hk, hT]
            rw [hidx]
            exact hused
    case reasoningDelta =>
      rcases hR : ss.currentReasoningId with _ | rid
      · refine ⟨u ss.uuidIdx :: used, ?_, ?_⟩
        · simp only [streamStep, hk, hR]
          first
          | (rw [wfRun_pre]; simp [wfRun, wfStep, hfresh])
          | exact wfRun_pre_nil _ _ _ _ _
        · have hidx : (streamStep w includeRaw u ss (.parsed e)).1.uuidIdx
              = ss.uuidIdx + 1 := by simp [streamStep, hk, hR]
          rw [hidx]
          intro x hx
          rw [List.mem_cons] at hx
          rcases hx with rfl | hx
          · exact ⟨ss.uuidIdx, by omega, rfl⟩
          · obtain ⟨i, hi, he⟩ := hused x hx
            exact ⟨i, by omega, he⟩
      · refine ⟨used, ?_, ?_⟩
        · simp only [streamStep, hk, hR]
          first
          | (rw [wfRun_pre]; simp [wfRun, wfStep, hR])
          | exact wfRun_pre_nil _ _ _ _ _
        · have hidx : (streamStep w includeRaw u ss (.parsed e)).1.uuidIdx
              = ss.uuidIdx := by simp [streamStep, hk, hR]
          rw [hidx]
          exact hused
    case reasoningDone =>
      rcases hR : ss.currentReasoningId with _ | rid <;>
        · refine ⟨used, ?_, ?_⟩
          · simp only [streamStep, hk, hR]
            first
            | (rw [wfRun_pre]; simp [wfRun, wfStep, hR])
            | exact wfRun_pre_nil _ _ _ _ _
          · have hidx : (streamStep w includeRaw u ss (.parsed e)).1.uuidIdx
                = ss.uuidIdx := by simp [streamStep, hk, hR]
            rw [hidx]
            exact hused
    case itemAdded =>
      refine ⟨used, ?_, ?_⟩
      · rcases hi : e.item with _ | item
        · simp only [streamStep, hk, hi]
          first
          | (rw [wfRun_pre]; simp [wfRun, wfStep])
          | exact wfRun_pre_nil _ _ _ _ _
        · rcases hn : item.name with _ | n
          · simp only [streamStep, hk, hi, hn]
            first
            | (rw [wfRun_pre]; simp [wfRun, wfStep])
            | exact wfRun_pre_nil _ _ _ _ _
          · by_cases hcond : item.type = some "function_call" ∧ ¬ n = ""
            · rcases ho : orOpt item.id e.item_id with _ | iid
              · simp only [streamStep, hk, hi, hn, ho, if_pos hcond]
                first
                | (rw [wfRun_pre]; simp [wfRun, wfStep])
                | exact wfRun_pre_nil _ _ _ _ _
              · by_cases hii : ¬ iid = ""
                · simp only [streamStep, hk, hi, hn, ho, if_pos hcond, if_pos hii]
                  first
                  | (rw [wfRun_pre]; simp [wfRun, wfStep])
                  | exact wfRun_pre_nil _ _ _ _ _
                · simp only [streamStep, hk, hi, hn, ho, if_pos hcond, if_neg hii]
                  first
                  | (rw [wfRun_pre]; simp [wfRun, wfStep])
                  | exact wfRun_pre_nil _ _ _ _ _
            · simp only [streamStep, hk, hi, hn, if_neg hcond]
              first
              | (rw [wfRun_pre]; simp [wfRun, wfStep])
              | exact wfRun_pre_nil _ _ _ _ _
      · have hidx : (streamStep w includeRaw u ss (.parsed e)).1.uuidIdx
            = ss.uuidIdx := by
          simp only [streamStep, hk]
          (repeat' split) <;> rfl
        rw [hidx]
        exact hused
    case argsDelta =>
      refine ⟨used, ?_, ?_⟩
      · rcases hi : e.item_id with _ | iid
        · simp only [streamStep, hk, hi]
          first
          | (rw [wfRun_pre]; simp [wfRun, wfStep])
          | exact wfRun_pre_nil _ _ _ _ _
        · rcases hd : e.delta with _ | d
          · simp only [streamStep, hk, hi, hd]
            first
            | (rw [wfRun_pre]; simp [wfRun, wfStep])
            | exact wfRun_pre_nil _ _ _ _ _
          · by_cases hcond : ¬ iid = "" ∧ ¬ d = ""
            · simp only [streamStep, hk, hi, hd, if_pos hcond]
              first
              | (rw [wfRun_pre]; simp [wfRun, wfStep])
              | exact wfRun_pre_nil _ _ _ _ _
            · simp only [streamStep, hk, hi, hd, if_neg hcond]
              first
              | (rw [wfRun_pre]; simp [wfRun, wfStep])
              | exact wfRun_pre_nil _ _ _ _ _
      · have hidx : (streamStep w includeRaw u ss (.parsed e)).1.uuidIdx
            = ss.uuidIdx := by
          simp only [streamStep, hk]
          (repeat' split) <;> rfl
        rw [hidx]
        exact hused
    case argsDone =>
      refine ⟨used, ?_, ?_⟩
      · simp only [streamStep, hk]
        rw [wfRun_pre, wfRun_neutral_done_tail]
      · intro x hx
        obtain ⟨i, hi, he⟩ := hused x hx
        have hge : ss.uuidIdx ≤ (streamStep w includeRaw u ss (.parsed e)).1.uuidIdx := by
          simp only [streamStep, hk]
          rcases ho : orOpt e.call_id e.item_id with _ | c <;> simp [ho]
        exact ⟨i, by omega, he⟩
    case completed =>
      refine ⟨used, ?_, ?_⟩
      · rcases hT : ss.currentTextId with _ | tid <;>
          rcases hR : ss.currentReasoningId with _ | rid <;>
            · simp only [streamStep, hk, hT, hR]
              first
              | (rw [wfRun_pre]; simp [wfRun, wfStep, hT, hR])
              | exact wfRun_pre_nil _ _ _ _ _
      · have hidx : (streamStep w includeRaw u ss (.parsed e)).1.uuidIdx
            = ss.uuidIdx := by simp [streamStep, hk]
        rw [hidx]
        exact hused
    case otherKind =>
      refine ⟨used, ?_, ?_⟩
      · simp only [streamStep, hk]
        have : ∀ s : WfState, wfRun s
            (((if ss.isFirstChunk then [StreamPart.streamStart w] else [])
              ++ (if includeRaw then [StreamPart.raw e] else [])) ++ []) = wfRun s [] :=
          fun s => wfRun_pre s ss.isFirstChunk includeRaw w e []
        simpa [wfRun] using this ⟨ss.currentTextId, ss.currentReasoningId, used⟩
      · have hidx : (streamStep w includeRaw u ss (.parsed e)).1.uuidIdx
            = ss.uuidIdx := by simp [streamStep, hk]
        rw [hidx]
        exact hused

/-- Whole-run checker simulation. -/
theorem wf_run_sim (w : List Warning) (includeRaw : Bool) (u : Nat → String)
    (hInj : Function.Injective u) (rs : List EventRecord) :
    ∀ (ss : StreamState) (used : List String),
      (∀ x ∈ used, ∃ i, i < ss.uuidIdx ∧ x = u i) →
      ∃ used2,
        wfRun ⟨ss.currentTextId, ss.currentReasoningId, used⟩
            (streamRun w includeRaw u ss rs).2
          = some ⟨(streamRun w includeRaw u ss rs).1.currentTextId,
                  (streamRun w includeRaw u ss rs).1.currentReasoningId, used2⟩
        ∧ ∀ x ∈ used2, ∃ i, i < (streamRun w includeRaw u ss rs).1.uuidIdx ∧ x = u i := by
  induction rs with
  | nil => exact fun ss used hused => ⟨used, rfl, hused⟩
  | cons r t ih =>
    intro ss used hused
    obtain ⟨used1, hrun1, hb1⟩ := wf_step_sim w includeRaw u hInj ss r used hused
    obtain ⟨used2, hrun2, hb2⟩ := ih (streamStep w includeRaw u ss r).1 used1 hb1
    have hE : (streamRun w includeRaw u ss (r :: t)).2
        = (streamStep w includeRaw u ss r).2
          ++ (streamRun w includeRaw u (streamStep w includeRaw u ss r).1 t).2 := by
      simp [streamRun]
    have hS : (streamRun w includeRaw u ss (r :: t)).1
        = (streamRun w includeRaw u (streamStep w includeRaw u ss r).1 t).1 := by
      simp [streamRun]
    refine ⟨used2, ?_, ?_⟩
    · rw [hE, wfRun_append, hrun1]
      simpa [hS] using hrun2
    · rw [hS]
      exact hb2

/-- At a completed record, the translator force-closes both segments. -/
theorem streamStep_completed_closes (w : List Warning) (includeRaw : Bool)
    (u : Nat → String) (st : StreamState) (e : ParsedEvent)
    (hk : eventKind e.type = .completed) :
    (streamStep w includeRaw u st (.parsed e)).1.currentTextId = none
  ∧ (streamStep w includeRaw u st (.parsed e)).1.currentReasoningId = none := by
  constructor <;> simp [streamStep, hk]

/-- C2 amended: with an injective uuid supply, the emitted event
sequence of any record sequence passes the segment checker, whose final
open segments are exactly the translator.s open segments: every
text-start or reasoning-start emitted before a finish is closed by
exactly one matching end before that finish (ends are synthesized at
response.completed, closing both segments), but a stream that ends
without a completed record keeps its open segments unclosed, and a
tool-input-start is closed only by an explicit arguments-done record,
not at completion. -/
theorem c2_segment_closing_amended (w : List Warning) (includeRaw : Bool)
    (u : Nat → String) (rs : List EventRecord)
    (hInj : Function.Injective u) :
    (∃ s2, wfRun ⟨none, none, []⟩ (streamRun w includeRaw u initStreamState rs).2
        = some s2
      ∧ s2.openT = (streamRun w includeRaw u initStreamState rs).1.currentTextId
      ∧ s2.openR = (streamRun w includeRaw u initStreamState rs).1.currentReasoningId)
  ∧ (∀ (hd : List EventRecord) (e : ParsedEvent), eventKind e.type = .completed →
      (streamRun w includeRaw u initStreamState (hd ++ [.parsed e])).1.currentTextId = none
    ∧ (streamRun w includeRaw u initStreamState (hd ++ [.parsed e])).1.currentReasoningId
        = none) := by
  constructor
  · obtain ⟨used2, hrun, _⟩ :=
      wf_run_sim w includeRaw u hInj rs initStreamState [] (by simp)
    exact ⟨_, hrun, rfl, rfl⟩
  · intro hd e hk
    have hS : (streamRun w includeRaw u initStreamState (hd ++ [.parsed e])).1
        = (streamStep w includeRaw u
            (streamRun w includeRaw u initStreamState hd).1 (.parsed e)).1 := by
      rw [streamRun_append]
      simp [streamRun]
    rw [hS]
    exact streamStep_completed_closes w includeRaw u _ e hk

/-- A concrete injective uuid supply for witnesses. -/
def repA : Nat → String := fun n => String.mk (List.replicate n 'a')

theorem repA_injective : Function.Injective repA := by
  intro a b h
  have hd : List.replicate a 'a' = List.replicate b 'a' :=
    congrArg String.data h
  have hl : (List.replicate a 'a').length = (List.replicate b 'a').length := by
    rw [hd]
  simpa using hl

def c2wRecords : List EventRecord := [mkTextDelta "hello", mkCompleted "completed"]

/-- C2 witness: on a concrete stream with an open text segment at
completion time, the checker accepts the emitted events and the final
state has no open segments. -/
theorem c2_segment_closing_witness :
    Function.Injective repA
  ∧ (∃ s2, wfRun ⟨none, none, []⟩
        (streamRun [] false repA initStreamState c2wRecords).2 = some s2
      ∧ s2.openT = (streamRun [] false repA initStreamState c2wRecords).1.currentTextId
      ∧ s2.openR
          = (streamRun [] false repA initStreamState c2wRecords).1.currentReasoningId)
  ∧ ((streamRun [] false repA initStreamState
        ([mkTextDelta "hello"] ++ [.parsed { type := some "response.completed" }])).1.currentTextId
      = none) :=
  ⟨repA_injective,
   (c2_segment_closing_amended [] false repA c2wRecords repA_injective).1,
   ((c2_segment_closing_amended [] false repA
      ([mkTextDelta "hello"] ++ [.parsed { type := some "response.completed" }])
      repA_injective).2 [mkTextDelta "hello"]
      { type := some "response.completed" } rfl).1⟩

/-- C2 counterexample: when the upstream terminates mid-segment without
a response.completed record, the open text segment is never closed - no
text-end is synthesized at abort; and a tool-input-start is not closed
at response.completed either - the finish is emitted while the tool
input segment is still open. -/
theorem c2_counterexample :
    (streamRun [] false natName initStreamState [mkTextDelta "x"]).2
      = [.streamStart [], .textStart "0", .textDelta "0" "x"]
  ∧ (∀ ev ∈ (streamRun [] false natName initStreamState [mkTextDelta "x"]).2,
      ¬ ev = StreamPart.textEnd "0")
  ∧ (streamRun [] false natName initStreamState
        [mkItemAdded "i1" "f", mkCompleted "completed"]).2
      = [.streamStart [], .toolInputStart "i1" "f",
         .responseMetadata (some "resp1") (some "model1"),
         .finish ⟨"stop", "completed"⟩ (extractUsage (some (completedResponse "completed")))]
  ∧ (∀ ev ∈ (streamRun [] false natName initStreamState
        [mkItemAdded "i1" "f", mkCompleted "completed"]).2,
      ¬ ev = StreamPart.toolInputEnd "i1") := by
  decide

-- ── C5: request encoder (convertToCodexInput) ──────────────────────────

inductive FileData where
  | url (href : String)
  | base64 (data : String)
  | bytes (data : List Nat)
deriving DecidableEq, Repr

structure FilePart where
  mediaType : String
  filename : Option String
  data : FileData
deriving DecidableEq, Repr

inductive UserPart where
  | text (text : String)
  | file (f : FilePart)
deriving DecidableEq, Repr

inductive AssistantPart where
  | text (text : String)
  | reasoning (text : String)
  | toolCall (toolCallId : String) (toolName : String) (input : JsonVal)
  | file
  | toolResult
deriving DecidableEq, Repr

inductive ContentSub where
  | text (text : String)
  | media
deriving DecidableEq, Repr

inductive ToolOutput where
  | text (value : String)
  | errorText (value : String)
  | json (serialized : String)
  | errorJson (serialized : String)
  | executionDenied (reason : Option String)
  | content (value : List ContentSub)
  | other
deriving DecidableEq, Repr

inductive ToolPart where
  | toolResult (toolCallId : String) (output : ToolOutput)
  | approvalResponse
deriving DecidableEq, Repr

/-- A prompt message of the host SDK. -/
inductive Message where
  | system (content : String)
  | user (content : List UserPart)
  | assistant (content : List AssistantPart)
  | tool (content : List ToolPart)
deriving DecidableEq, Repr

inductive CodexRole where
  | system | user | assistant
deriving DecidableEq, Repr

inductive CodexContentPart where
  | inputText (text : String)
  | inputImage (imageUrl : String)
  | outputText (text : String)
deriving DecidableEq, Repr

inductive CodexInputItem where
  | message (role : CodexRole) (content : List CodexContentPart)
  | functionCall (id : String) (call_id : String) (name : String) (arguments : String)
  | functionCallOutput (call_id : String) (output : String)
deriving DecidableEq, Repr

/-- User part conversion: text passes through; image files become an
input_image url (verbatim url, or a data url from base64 text or from
bytes via the injected base64 encoder); other files become a text
placeholder naming the file and media type. -/
def convertUserPart (b64 : List Nat → String) (p : UserPart) : CodexContentPart :=
  match p with
  | .text t => .inputText t
  | .file f =>
    if f.mediaType.startsWith "image/" then
      .inputImage (match f.data with
        | .url href => href
        | .base64 d => "data:" ++ f.mediaType ++ ";base64," ++ d
        | .bytes bs => "data:" ++ f.mediaType ++ ";base64," ++ b64 bs)
    else
      .inputText ("[File: " ++ f.filename.getD "unnamed" ++ " (" ++ f.mediaType ++ ")]")

def assistantTextParts (content : List AssistantPart) : List CodexContentPart :=
  content.filterMap fun p =>
    match p with
    | .text t => some (.outputText t)
    | .reasoning t => some (.outputText ("<reasoning>\n" ++ t ++ "\n</reasoning>"))
    | _ => none

def assistantFunctionCalls (content : List AssistantPart) : List CodexInputItem :=
  content.filterMap fun p =>
    match p with
    | .toolCall toolCallId toolName input =>
        some (.functionCall toolCallId toolCallId toolName
          (match input with
           | .str s => s
           | .other serialized => serialized))
    | _ => none

/-- Flattening of a tool-result payload to the output string. -/
def toolOutputText : ToolOutput → String
  | .text v => v
  | .errorText v => v
  | .json serialized => serialized
  | .errorJson serialized => serialized
  | .executionDenied reason => reason.getD "Tool execution denied"
  | .content value =>
      String.intercalate "\n" (value.filterMap fun item =>
        match item with
        | .text t => some t
        | .media => none)
  | .other => ""

/-- Per-message conversion: the system contribution and the input
items. -/
def convertMessage (b64 : List Nat → String) (m : Message) :
    List String × List CodexInputItem :=
  match m with
  | .system content => ([content], [])
  | .user content => ([], [.message .user (content.map (convertUserPart b64))])
  | .assistant content =>
      ([], (if assistantTextParts content = [] then []
            else [.message .assistant (assistantTextParts content)])
           ++ assistantFunctionCalls content)
  | .tool content =>
      ([], content.filterMap fun p =>
        match p with
        | .toolResult toolCallId output =>
            some (.functionCallOutput toolCallId (toolOutputText output))
        | .approvalResponse => none)

/-- convertToCodexInput from convert-to-codex-messages: one pass over
the prompt collecting system parts and input items, then the
instructions string. -/
def convertToCodexInput (b64 : List Nat → String) (prompt : List Message) :
    String × List CodexInputItem :=
  let pairs := prompt.map (convertMessage b64)
  let systemParts := (pairs.map Prod.fst).flatten
  let items := (pairs.map Prod.snd).flatten
  (if systemParts = [] then "You are a helpful assistant."
   else String.intercalate "\n\n" systemParts,
   items)

theorem convert_system_parts (b64 : List Nat → String) (prompt : List Message) :
    ((prompt.map (convertMessage b64)).map Prod.fst).flatten
      = prompt.filterMap (fun m =>
          match m with
          | Message.system c => some c
          | _ => none) := by
  induction prompt with
  | nil => rfl
  | cons m t ih =>
    simp only [List.map_map] at ih
    cases m <;> simp [convertMessage, ih, List.filterMap_cons]

theorem convertMessage_no_system (b64 : List Nat → String) (m : Message) :
    ∀ item ∈ (convertMessage b64 m).2, ∀ c, ¬ item = .message .system c := by
  cases m with
  | system content => simp [convertMessage]
  | user content => simp [convertMessage]
  | assistant content =>
    intro item hitem c
    simp only [convertMessage] at hitem
    rcases List.mem_append.mp hitem with h | h
    · by_cases hc : assistantTextParts content = []
      · simp [hc] at h
      · simp only [if_neg hc, List.mem_singleton] at h
        simp [h]
    · obtain ⟨p, _, heq⟩ := List.mem_filterMap.mp h
      cases p <;> simp at heq <;> simp [← heq]
  | tool content =>
    intro item hitem c
    simp only [convertMessage] at hitem
    obtain ⟨p, _, heq⟩ := List.mem_filterMap.mp hitem
    cases p <;> simp at heq <;> simp [← heq]

/-- C5: the encoder returns exactly one instructions string, the system
message contents joined by blank lines (or the fixed default when no
system message exists), and no system-role item ever appears in the
input array; the spec scenario (a lone user text message) is included. -/
theorem c5_instructions_no_system (b64 : List Nat → String) (prompt : List Message) :
    (convertToCodexInput b64 prompt).1
      = (if (prompt.filterMap fun m =>
              match m with
              | Message.system c => some c
              | _ => none) = []
         then "You are a helpful assistant."
         else String.intercalate "\n\n"
           (prompt.filterMap fun m =>
              match m with
              | Message.system c => some c
              | _ => none))
  ∧ (∀ item ∈ (convertToCodexInput b64 prompt).2, ∀ c,
      ¬ item = CodexInputItem.message CodexRole.system c)
  ∧ convertToCodexInput (fun _ => "") [.user [.text "hi"]]
      = ("You are a helpful assistant.",
         [CodexInputItem.message CodexRole.user [CodexContentPart.inputText "hi"]]) := by
  refine ⟨?_, ?_, by rfl⟩
  · simp only [convertToCodexInput]
    rw [convert_system_parts]
  · intro item hitem c
    simp only [convertToCodexInput] at hitem
    rw [List.mem_flatten] at hitem
    obtain ⟨l, hl, hil⟩ := hitem
    rw [List.mem_map] at hl
    obtain ⟨pair, hpair, rfl⟩ := hl
    rw [List.mem_map] at hpair
    obtain ⟨m, _, rfl⟩ := hpair
    exact convertMessage_no_system b64 m item hil c

-- ── C3: provider header assembly (getHeaders in createCodex) ──────────

/-- JS truthiness of an optional string option. -/
def strTruthy : Option String → Bool
  | some s => decide (¬ s = "")
  | none => false

structure CodexProviderOptions where
  apiKey : Option String
  useApiKey : Bool
  refreshToken : Option String
  headers : List (String × String)
deriving DecidableEq, Repr

/-- Lookup in a header object built by object-spread: the last binding
of a name wins. -/
def hLookup (m : List (String × String)) (k : String) : Option String :=
  (m.reverse.find? (fun p => p.1 = k)).map Prod.snd

/-- getHeaders from codex-provider (createCodex), as a function of the
resolved environment inputs: the env API key, the refresh session access
token and account id (after ensureRefreshSession), and the headers
CodexAuth.getHeaders returns in the file-based default mode.  Spread
order is the source order of each branch. -/
def getHeadersModel (opts : CodexProviderOptions) (envKey : String)
    (sessionAccessToken sessionAccountId : String)
    (authHeaders : List (String × String)) : List (String × String) :=
  if strTruthy opts.apiKey then
    opts.headers ++
      [("Authorization", "Bearer " ++ opts.apiKey.getD ""),
       ("Content-Type", "application/json")]
  else if strTruthy opts.refreshToken then
    [("Authorization", "Bearer " ++ sessionAccessToken),
     ("chatgpt-account-id", sessionAccountId),
     ("Content-Type", "application/json"),
     ("originator", "codex"),
     ("accept", "text/event-stream")] ++ opts.headers
  else if opts.useApiKey then
    opts.headers ++
      [("Authorization", "Bearer " ++ envKey),
       ("Content-Type", "application/json")]
  else
    authHeaders ++ [("originator", "codex"), ("accept", "text/event-stream")]
      ++ opts.headers

theorem hLookup_append (a b : List (String × String)) (k : String) :
    hLookup (a ++ b) k
      = match hLookup b k with
        | some x => some x
        | none => hLookup a k := by
  simp only [hLookup, List.reverse_append, List.find?_append]
  cases (b.reverse.find? (fun p => p.1 = k)) <;> simp [Option.orElse]

/-- C3 amended: caller-supplied custom headers win only in refresh-token
mode and in the file-based default mode; in explicit-key and
environment-key modes the headers are spread first, so the computed
Authorization and Content-Type override any caller-supplied value (other
names still fall through to the caller values). -/
theorem c3_headers_amended (opts : CodexProviderOptions) (envKey : String)
    (tok acc : String) (authHeaders : List (String × String)) :
    ((strTruthy opts.apiKey = false
        ∧ (strTruthy opts.refreshToken = true
           ∨ (strTruthy opts.refreshToken = false ∧ opts.useApiKey = false)))
      → ∀ k vl, hLookup opts.headers k = some vl
          → hLookup (getHeadersModel opts envKey tok acc authHeaders) k = some vl)
  ∧ (strTruthy opts.apiKey = true
      → hLookup (getHeadersModel opts envKey tok acc authHeaders) "Authorization"
            = some ("Bearer " ++ opts.apiKey.getD "")
        ∧ hLookup (getHeadersModel opts envKey tok acc authHeaders) "Content-Type"
            = some "application/json"
        ∧ ∀ k, ¬ k = "Authorization" → ¬ k = "Content-Type"
            → hLookup (getHeadersModel opts envKey tok acc authHeaders) k
                = hLookup opts.headers k)
  ∧ (strTruthy opts.apiKey = false → strTruthy opts.refreshToken = false
      → opts.useApiKey = true
      → hLookup (getHeadersModel opts envKey tok acc authHeaders) "Authorization"
            = some ("Bearer " ++ envKey)
        ∧ hLookup (getHeadersModel opts envKey tok acc authHeaders) "Content-Type"
            = some "application/json"
        ∧ ∀ k, ¬ k = "Authorization" → ¬ k = "Content-Type"
            → hLookup (getHeadersModel opts envKey tok acc authHeaders) k
                = hLookup opts.headers k) := by
  refine ⟨?_, ?_, ?_⟩
  · rintro ⟨h1, h2 | ⟨h2, h3⟩⟩ k vl hk
    · simp only [getHeadersModel, h1, h2, Bool.false_eq_true, if_false, if_true]
      rw [hLookup_append, hk]
    · simp only [getHeadersModel, h1, h2, h3, Bool.false_eq_true, if_false]
      rw [hLookup_append, hk]
  · intro h1
    refine ⟨?_, ?_, ?_⟩
    · simp only [getHeadersModel, h1, if_true]
      rw [hLookup_append]
      simp [hLookup]
    · simp only [getHeadersModel, h1, if_true]
      rw [hLookup_append]
      simp [hLookup]
    · intro k hk1 hk2
      have hk1s : ¬ ("Authorization" : String) = k := fun h => hk1 h.symm
      have hk2s : ¬ ("Content-Type" : String) = k := fun h => hk2 h.symm
      simp only [getHeadersModel, h1, if_true]
      rw [hLookup_append]
      simp [hLookup, hk1s, hk2s]
  · intro h1 h2 h3
    refine ⟨?_, ?_, ?_⟩
    · simp only [getHeadersModel, h1, h2, h3, Bool.false_eq_true, if_false, if_true]
      rw [hLookup_append]
      simp [hLookup]
    · simp only [getHeadersModel, h1, h2, h3, Bool.false_eq_true, if_false, if_true]
      rw [hLookup_append]
      simp [hLookup]
    · intro k hk1 hk2
      have hk1s : ¬ ("Authorization" : String) = k := fun h => hk1 h.symm
      have hk2s : ¬ ("Content-Type" : String) = k := fun h => hk2 h.symm
      simp only [getHeadersModel, h1, h2, h3, Bool.false_eq_true, if_false, if_true]
      rw [hLookup_append]
      simp [hLookup, hk1s, hk2s]

def c3wOpts : CodexProviderOptions :=
  { apiKey := none, useApiKey := false, refreshToken := some "rt"
  , headers := [("Authorization", "mine"), ("x-custom", "1")] }

/-- C3 witness: in refresh-token mode a caller-supplied Authorization
header overrides the computed bearer header. -/
theorem c3_headers_amended_witness :
    (strTruthy c3wOpts.apiKey = false ∧ strTruthy c3wOpts.refreshToken = true)
  ∧ hLookup (getHeadersModel c3wOpts "" "tok" "acc" []) "Authorization" = some "mine"
  ∧ hLookup (getHeadersModel c3wOpts "" "tok" "acc" []) "x-custom" = some "1" := by
  have h := (c3_headers_amended c3wOpts "" "tok" "acc" []).1 ⟨by decide, Or.inl (by decide)⟩
  exact ⟨⟨by decide, by decide⟩, h "Authorization" "mine" (by decide),
    h "x-custom" "1" (by decide)⟩

def c3xOpts : CodexProviderOptions :=
  { apiKey := some "k", useApiKey := false, refreshToken := none
  , headers := [("Authorization", "custom")] }

/-- C3 counterexample: in explicit-key mode the caller-supplied
Authorization header is overridden by the computed bearer header, so
caller headers are not applied last in every auth mode. -/
theorem c3_counterexample :
    hLookup c3xOpts.headers "Authorization" = some "custom"
  ∧ hLookup (getHeadersModel c3xOpts "" "" "" []) "Authorization" = some "Bearer k"
  ∧ ¬ hLookup (getHeadersModel c3xOpts "" "" "" []) "Authorization" = some "custom" := by
  decide

-- ── C9: upstream request error handling ────────────────────────────────

/-- The upstream HTTP response as the language model sees it. -/
structure FetchResponse where
  ok : Bool
  status : Int
  bodyText : String
deriving DecidableEq, Repr

/-- tryParseErrorMessage from codex-language-model, parameterized by the
runtime JSON parser: jp body is none when JSON.parse throws, and
otherwise carries the error.message field of the parsed object when it
is present. -/
def tryParseErrorMessage (jp : String → Option (Option String))
    (body : String) : Option String :=
  match jp body with
  | none => none
  | some msg => msg

/-- The non-success path shared by doGenerate and doStream: a non-ok
response makes the call throw with the extracted or raw body message;
there is no retry. -/
def requestErrorCheck (jp : String → Option (Option String))
    (resp : FetchResponse) : Except String Unit :=
  if resp.ok then Except.ok ()
  else
    Except.error ("Codex API error " ++ toString resp.status ++ ": "
      ++ (tryParseErrorMessage jp resp.bodyText).getD resp.bodyText)

/-- C9: a non-success status fails the call with an error whose message
contains the message extracted from a structured error body when the
body parses, else the raw body text. -/
theorem c9_upstream_error (jp : String → Option (Option String))
    (resp : FetchResponse) (h : resp.ok = false) :
    ∃ msg, requestErrorCheck jp resp = Except.error msg
      ∧ msg = "Codex API error " ++ toString resp.status ++ ": "
          ++ (tryParseErrorMessage jp resp.bodyText).getD resp.bodyText
      ∧ (∀ m, jp resp.bodyText = some (some m) → ∃ a, msg = a ++ m)
      ∧ (jp resp.bodyText = none → ∃ a, msg = a ++ resp.bodyText)
      ∧ (jp resp.bodyText = some none → ∃ a, msg = a ++ resp.bodyText) := by
  refine ⟨_, by simp [requestErrorCheck, h], rfl, ?_, ?_, ?_⟩
  · intro m hm
    exact ⟨_, by rw [tryParseErrorMessage, hm]; rfl⟩
  · intro hm
    exact ⟨_, by rw [tryParseErrorMessage, hm]; rfl⟩
  · intro hm
    exact ⟨_, by rw [tryParseErrorMessage, hm]; rfl⟩

def c9Body : String := "\x7b\"error\":\x7b\"message\":\"bad token\"\x7d\x7d"

def c9Jp : String → Option (Option String) :=
  fun s => if s = c9Body then some (some "bad token") else none

def c9Resp : FetchResponse := { ok := false, status := 401, bodyText := c9Body }

/-- C9 witness: status 401 with a structured error body yields an error
whose message contains the extracted message. -/
theorem c9_upstream_error_witness :
    c9Resp.ok = false
  ∧ ∃ msg, requestErrorCheck c9Jp c9Resp = Except.error msg
      ∧ ∃ a, msg = a ++ "bad token" := by
  refine ⟨rfl, ?_⟩
  obtain ⟨msg, h1, _, h3, _, _⟩ := c9_upstream_error c9Jp c9Resp rfl
  exact ⟨msg, h1, h3 "bad token" (by decide)⟩

-- ── C4: refresh-token single flight (ensureRefreshSession) ─────────────

/-- The in-memory refresh session of createCodex. -/
structure RefreshSession where
  accessToken : String
  refreshToken : String
  accountId : String
  expiresAt : Option Int
deriving DecidableEq, Repr

/-- The freshness check at the top of ensureRefreshSession: a session is
fresh when it exists and its expiry is unknown or more than one hour
away. -/
def sessionFresh (s : Option RefreshSession) (now : Int) : Bool :=
  match s with
  | none => false
  | some sess =>
    match sess.expiresAt with
    | none => true
    | some e => decide (e - now > 60 * 60 * 1000)

/-- Where one caller of ensureRefreshSession stands: not yet entered,
awaiting the shared in-flight promise as a late joiner, awaiting its own
installed promise as the owner, or returned. -/
inductive CallerPhase where
  | ready | waitJoin | waitOwn | finished
deriving DecidableEq, Repr

inductive PromiseStatus where
  | pending | settled
deriving DecidableEq, Repr

/-- Shared state of the provider closure: the session, the
refreshSessionPromise slot, each caller phase, and the number of
token-exchange calls started. -/
structure SFState where
  session : Option RefreshSession
  slot : Option PromiseStatus
  callers : List CallerPhase
  exchangeCount : Nat
deriving DecidableEq, Repr

/-- Scheduler events of the interleaving semantics.  enter runs one
caller synchronously from the top of ensureRefreshSession to its first
suspension point (JavaScript run-to-completion makes the check-then-
install segment atomic); complete settles the in-flight exchange, with
success updating the session inside the async closure before the
promise resolves; resume runs a suspended caller after the promise it
awaits has settled - the owner clears the slot in its finally block. -/
inductive SFLabel where
  | enter (i : Nat) (now : Int)
  | complete (result : Option RefreshSession)
  | resume (i : Nat)
deriving DecidableEq, Repr

def sfStep (st : SFState) (l : SFLabel) : SFState :=
  match l with
  | .enter i now =>
    match st.callers[i]? with
    | some .ready =>
      if sessionFresh st.session now then
        { st with callers := st.callers.set i .finished }
      else
        match st.slot with
        | some _ => { st with callers := st.callers.set i .waitJoin }
        | none =>
          { st with slot := some .pending
                    callers := st.callers.set i .waitOwn
                    exchangeCount := st.exchangeCount + 1 }
    | _ => st
  | .complete result =>
    match st.slot with
    | some .pending =>
      { st with slot := some .settled
                session :=
                  match result with
                  | some sess => some sess
                  | none => st.session }
    | _ => st
  | .resume i =>
    match st.callers[i]? with
    | some .waitOwn =>
      match st.slot with
      | some .settled => { st with slot := none, callers := st.callers.set i .finished }
      | _ => st
    | some .waitJoin =>
      match st.slot with
      | some .pending => st
      | _ => { st with callers := st.callers.set i .finished }
    | _ => st

def sfRun (st : SFState) (ls : List SFLabel) : SFState := ls.foldl sfStep st

def initSF (n : Nat) (s0 : Option RefreshSession) : SFState :=
  { session := s0, slot := none, callers := List.replicate n .ready
  , exchangeCount := 0 }

/-- Before any caller has installed the promise: no exchange started,
slot empty, session untouched, all callers still at the entry. -/
def sfD0 (n : Nat) (s0 : Option RefreshSession) (st : SFState) : Prop :=
  st.slot = none ∧ st.exchangeCount = 0 ∧ st.session = s0
    ∧ st.callers.length = n
    ∧ ∀ (j : Nat) (p : CallerPhase), st.callers[j]? = some p → p = CallerPhase.ready

/-- After the first caller installed the shared promise: exactly one
exchange started, promise pending, session untouched. -/
def sfD1 (s0 : Option RefreshSession) (st : SFState) : Prop :=
  st.slot = some .pending ∧ st.exchangeCount = 1 ∧ st.session = s0

theorem sfStep_D1 (s0 : Option RefreshSession) (st : SFState) (l : SFLabel)
    (hD1 : sfD1 s0 st)
    (hl : ∀ i now, l = SFLabel.enter i now → sessionFresh s0 now = false)
    (hc : ∀ res, ¬ l = SFLabel.complete res) :
    sfD1 s0 (sfStep st l) := by
  obtain ⟨h1, h2, h3⟩ := hD1
  cases l with
  | enter i now =>
    have hstale := hl i now rfl
    rcases hp : st.callers[i]? with _ | p
    · simpa [sfStep, hp] using ⟨h1, h2, h3⟩
    · cases p <;>
        simp [sfStep, hp, h1, h2, h3, hstale, sfD1]
  | complete res => exact absurd rfl (hc res)
  | resume i =>
    rcases hp : st.callers[i]? with _ | p
    · simpa [sfStep, hp] using ⟨h1, h2, h3⟩
    · cases p <;> simp [sfStep, hp, h1, h2, h3, sfD1]

theorem sfRun_D1 (s0 : Option RefreshSession) (st : SFState) (ls : List SFLabel)
    (hD1 : sfD1 s0 st)
    (hl : ∀ i now, SFLabel.enter i now ∈ ls → sessionFresh s0 now = false)
    (hc : ∀ l ∈ ls, ∀ res, ¬ l = SFLabel.complete res) :
    sfD1 s0 (sfRun st ls) := by
  induction ls generalizing st with
  | nil => exact hD1
  | cons l t ih =>
    have hstep := sfStep_D1 s0 st l hD1
      (fun i now he => hl i now (by rw [he] at *; exact List.mem_cons_self _ _))
      (hc l (List.mem_cons_self l t))
    exact ih (sfStep st l) hstep
      (fun i now hm => hl i now (List.mem_cons_of_mem l hm))
      (fun x hx => hc x (List.mem_cons_of_mem l hx))

theorem sfStep_D0 (n : Nat) (s0 : Option RefreshSession) (st : SFState) (l : SFLabel)
    (hD0 : sfD0 n s0 st)
    (hl : ∀ i now, l = SFLabel.enter i now → sessionFresh s0 now = false)
    (hc : ∀ res, ¬ l = SFLabel.complete res) :
    sfD0 n s0 (sfStep st l) ∨ sfD1 s0 (sfStep st l) := by
  obtain ⟨h1, h2, h3, h4, h5⟩ := hD0
  cases l with
  | enter i now =>
    have hstale := hl i now rfl
    rcases hp : st.callers[i]? with _ | p
    · left
      simpa [sfStep, hp] using ⟨h1, h2, h3, h4, h5⟩
    · have hready := h5 i p hp
      subst hready
      right
      simp [sfStep, hp, h1, h2, h3, hstale, sfD1]
  | complete res => exact absurd rfl (hc res)
  | resume i =>
    left
    rcases hp : st.callers[i]? with _ | p
    · simpa [sfStep, hp] using ⟨h1, h2, h3, h4, h5⟩
    · have hready := h5 i p hp
      subst hready
      simpa [sfStep, hp] using ⟨h1, h2, h3, h4, h5⟩

/-- A valid enter fires from any D0 state. -/
theorem sfStep_D0_enter (n : Nat) (s0 : Option RefreshSession) (st : SFState)
    (i : Nat) (now : Int) (hD0 : sfD0 n s0 st) (hi : i < n)
    (hstale : sessionFresh s0 now = false) :
    sfD1 s0 (sfStep st (SFLabel.enter i now)) := by
  obtain ⟨h1, h2, h3, h4, h5⟩ := hD0
  have hlen : i < st.callers.length := by rw [h4]; exact hi
  rcases hp : st.callers[i]? with _ | p
  · rw [List.getElem?_eq_none_iff] at hp
    omega
  · have hready := h5 i p hp
    subst hready
    simp [sfStep, hp, h1, h2, h3, hstale, sfD1]

/-- Running phase one from a D0 state ends in D1 as soon as it contains
one enter of a real caller. -/
theorem sfRun_phase1 (n : Nat) (s0 : Option RefreshSession) (ls : List SFLabel) :
    ∀ (st : SFState), sfD0 n s0 st →
    (∀ i now, SFLabel.enter i now ∈ ls → sessionFresh s0 now = false) →
    (∀ l ∈ ls, ∀ res, ¬ l = SFLabel.complete res) →
    (∃ i now, SFLabel.enter i now ∈ ls ∧ i < n) →
    sfD1 s0 (sfRun st ls) := by
  induction ls with
  | nil => rintro st _ _ _ ⟨i, now, hmem, _⟩; simp at hmem
  | cons l t ih =>
    rintro st hD0 hstale hcomp ⟨i, now, hmem, hin⟩
    rw [List.mem_cons] at hmem
    rcases hmem with rfl | hmem
    · have hD1 := sfStep_D0_enter n s0 st i now hD0 hin
        (hstale i now (List.mem_cons_self _ _))
      exact sfRun_D1 s0 _ t hD1
        (fun j nw hm => hstale j nw (List.mem_cons_of_mem _ hm))
        (fun x hx => hcomp x (List.mem_cons_of_mem _ hx))
    · rcases sfStep_D0 n s0 st l hD0
        (fun j nw he => hstale j nw (by rw [he] at *; exact List.mem_cons_self _ _))
        (hcomp l (List.mem_cons_self l t)) with hD0n | hD1
      · exact ih (sfStep st l) hD0n
          (fun j nw hm => hstale j nw (List.mem_cons_of_mem _ hm))
          (fun x hx => hcomp x (List.mem_cons_of_mem _ hx))
          ⟨i, now, hmem, hin⟩
      · exact sfRun_D1 s0 _ t hD1
          (fun j nw hm => hstale j nw (List.mem_cons_of_mem _ hm))
          (fun x hx => hcomp x (List.mem_cons_of_mem _ hx))

/-- Labels without an enter never change the exchange counter. -/
theorem sfRun_count_no_enter (ls : List SFLabel) :
    ∀ (st : SFState), (∀ l ∈ ls, ∀ i now, ¬ l = SFLabel.enter i now) →
    (sfRun st ls).exchangeCount = st.exchangeCount := by
  induction ls with
  | nil => intro st _; rfl
  | cons l t ih =>
    intro st hno
    have hstep : (sfStep st l).exchangeCount = st.exchangeCount := by
      cases l with
      | enter i now => exact absurd rfl (hno _ (List.mem_cons_self _ _) i now)
      | complete res =>
        rcases hp : st.slot with _ | p
        · simp [sfStep, hp]
        · cases p <;> simp [sfStep, hp]
      | resume i =>
        rcases hp : st.callers[i]? with _ | p
        · simp [sfStep, hp]
        · rcases hq : st.slot with _ | q
          · cases p <;> simp [sfStep, hp, hq]
          · cases q <;> cases p <;> simp [sfStep, hp, hq]
    rw [sfRun, List.foldl_cons, ← sfRun]
    rw [ih (sfStep st l) (fun x hx => hno x (List.mem_cons_of_mem _ hx)), hstep]

/-- C4: under refresh-token mode, for any interleaving in which all the
concurrent callers enter ensureRefreshSession (finding the session
absent or within the one-hour margin) before the in-flight exchange
settles, exactly one token-exchange call is started; and the owner
clears the in-flight slot unconditionally after the exchange settles, on
success and on failure alike. -/
theorem c4_single_flight (n : Nat) (s0 : Option RefreshSession)
    (phase1 phase2 : List SFLabel)
    (hstale : ∀ i now, SFLabel.enter i now ∈ phase1 → sessionFresh s0 now = false)
    (hp1 : ∀ l ∈ phase1, ∀ res, ¬ l = SFLabel.complete res)
    (hp2 : ∀ l ∈ phase2, ∀ i now, ¬ l = SFLabel.enter i now)
    (hsome : ∃ i now, SFLabel.enter i now ∈ phase1 ∧ i < n) :
    (sfRun (initSF n s0) (phase1 ++ phase2)).exchangeCount = 1
  ∧ (∀ (st : SFState) (i : Nat) (res : Option RefreshSession),
      st.callers[i]? = some CallerPhase.waitOwn →
      st.slot = some PromiseStatus.pending →
      (sfStep (sfStep st (.complete res)) (.resume i)).slot = none) := by
  constructor
  · have hD0 : sfD0 n s0 (initSF n s0) := by
      refine ⟨rfl, rfl, rfl, by simp [initSF], ?_⟩
      intro j p hp
      simp only [initSF] at hp
      rcases Nat.lt_or_ge j n with hj | hj
      · rw [List.getElem?_replicate, if_pos hj] at hp
        exact (Option.some_inj.mp hp).symm
      · rw [List.getElem?_replicate, if_neg (by omega)] at hp
        exact absurd hp (by simp)
    have hD1 := sfRun_phase1 n s0 phase1 (initSF n s0) hD0 hstale hp1 hsome
    have hcount : (sfRun (initSF n s0) phase1).exchangeCount = 1 := hD1.2.1
    have happ : sfRun (initSF n s0) (phase1 ++ phase2)
        = sfRun (sfRun (initSF n s0) phase1) phase2 := by
      simp [sfRun, List.foldl_append]
    rw [happ, sfRun_count_no_enter phase2 _ hp2, hcount]
  · intro st i res h1 h2
    have hmid : sfStep st (.complete res) =
        { st with slot := some .settled
                  session :=
                    match res with
                    | some sess => some sess
                    | none => st.session } := by
      simp [sfStep, h2]
    rw [hmid]
    simp [sfStep, h1]

def c4wPhase1 : List SFLabel := [.enter 0 0, .enter 1 0]

def c4wPhase2 : List SFLabel := [.complete none, .resume 0, .resume 1]

def c4wMid : SFState :=
  { session := none, slot := some .pending
  , callers := [.waitOwn, .waitJoin], exchangeCount := 1 }

def c4wSess : RefreshSession :=
  { accessToken := "at", refreshToken := "rt", accountId := "acc"
  , expiresAt := some 0 }

/-- C4 witness: two concurrent callers entering before the exchange
settles trigger exactly one exchange, and the owner clears the slot
after a failed and after a successful completion alike. -/
theorem c4_single_flight_witness :
    (∃ i now, SFLabel.enter i now ∈ c4wPhase1 ∧ i < 2)
  ∧ (sfRun (initSF 2 none) (c4wPhase1 ++ c4wPhase2)).exchangeCount = 1
  ∧ (sfStep (sfStep c4wMid (.complete none)) (.resume 0)).slot = none
  ∧ (sfStep (sfStep c4wMid (.complete (some c4wSess))) (.resume 0)).slot = none := by
  have h := c4_single_flight 2 none c4wPhase1 c4wPhase2
    (fun i now _ => rfl)
    (by
      intro l hl res
      simp only [c4wPhase1, List.mem_cons, List.not_mem_nil, or_false] at hl
      rcases hl with rfl | rfl <;> simp)
    (by
      intro l hl i now
      simp only [c4wPhase2, List.mem_cons, List.not_mem_nil, or_false] at hl
      rcases hl with rfl | rfl | rfl <;> simp)
    ⟨0, 0, by simp [c4wPhase1], by omega⟩
  exact ⟨⟨0, 0, by simp [c4wPhase1], by omega⟩, h.1,
    h.2 c4wMid 0 none (by decide) (by decide),
    h.2 c4wMid 0 (some c4wSess) (by decide) (by decide)⟩

def c5wPrompt : List Message := [.system "a", .system "b", .user [.text "hi"]]

/-- C5 witness: two system messages joined by a blank line, and the lone
user item of the encoded input is not a system item. -/
theorem c5_instructions_no_system_witness :
    (convertToCodexInput (fun _ => "") c5wPrompt).1 = "a\n\nb"
  ∧ CodexInputItem.message CodexRole.user [CodexContentPart.inputText "hi"]
      ∈ (convertToCodexInput (fun _ => "") c5wPrompt).2
  ∧ ¬ CodexInputItem.message CodexRole.user [CodexContentPart.inputText "hi"]
      = CodexInputItem.message CodexRole.system [] := by
  refine ⟨?_, by decide, ?_⟩
  · rw [(c5_instructions_no_system (fun _ => "") c5wPrompt).1]
    decide
  · exact (c5_instructions_no_system (fun _ => "") c5wPrompt).2.1 _ (by decide) []

def c8wResp : ResponseData :=
  { status := none, id := none, model := none
  , usage := some { input_tokens := some 10, output_tokens := some 7
                  , input_tokens_details := some { cached_tokens := some 4 }
                  , output_tokens_details := some { reasoning_tokens := some 2 } } }

/-- C8 witness: with all operands present the derived fields are the
differences; with the details objects absent they are undefined. -/
theorem c8_extract_usage_fields_witness :
    (extractUsage (some c8wResp)).inputTokens.noCache = some 6
  ∧ (extractUsage (some c8wResp)).outputTokens.text = some 5
  ∧ (extractUsage (some (completedResponse "completed"))).inputTokens.noCache = none := by
  refine ⟨?_, ?_, ?_⟩
  · exact ((c8_extract_usage_fields (some c8wResp)).2.2.2.2.2.2.1 6).mpr
      ⟨10, 4, by decide, by decide, by decide⟩
  · exact ((c8_extract_usage_fields (some c8wResp)).2.2.2.2.2.2.2 5).mpr
      ⟨7, 2, by decide, by decide, by decide⟩
  · have h := (c8_extract_usage_fields (some (completedResponse "completed"))).2.2.2.2.2.2.1
    rcases hc : (extractUsage (some (completedResponse "completed"))).inputTokens.noCache
        with _ | v
    · rfl
    · obtain ⟨t, c, _, hcache, _⟩ := (h v).mp hc
      have : (((some (completedResponse "completed")).bind
          ResponseData.usage).bind RawUsage.input_tokens_details).bind
          InputTokensDetails.cached_tokens = none := by decide
      rw [this] at hcache
      exact Option.noConfusion hcache

end Codex
